import Mathlib

/-!
Vehicular network scenario script: metrics, layout and report.

A shallow embedding of `src/.vscode/TreysonCV2XCode.cc`.

* The three file-scope `uint32_t` counters are natural numbers reduced modulo `2 ^ 32`
  after every increment.
* `double` values are modelled by `Dbl`: IEEE-754 binary64 with round-to-nearest,
  ties-to-even, signed zeros, infinities and a NaN, where a finite value is the rational number
  it denotes.
* The simulation framework (node creation, radio stack, event loop, trace sources) is not part
  of the sources; it appears as the parameter `Framework`, which supplies the sequence of
  trace-source firings of a run, `Time::GetSeconds` and the stream formatting of a `double`.
  `streamDouble` is the formatting of an output stream in its default state.
-/

namespace CV2X

/-! ## Metric counters and trace callbacks (source lines 10-29) -/

/-- Modelled from the spec: the framework type `Time` is missing from the sources. The spec
describes simulated time as a fixed-point count of nanoseconds, so a `Time` is its signed tick
count. Signed 64-bit overflow of a tick count is undefined in C++ and is not modelled: tick
counts are mathematical integers. -/
abbrev Time := Int

/-- The file-scope metric variables `totalPacketsSent`, `totalPacketsReceived`,
`totalCollisions` (all `uint32_t`) and `totalDelay` (a `Time`). -/
structure Counters where
  totalPacketsSent : Nat
  totalPacketsReceived : Nat
  totalCollisions : Nat
  totalDelay : Time
  deriving DecidableEq, Repr

/-- The initialisers of the four globals: `0`, `0`, `0` and `Seconds(0)`. -/
def initialCounters : Counters :=
  { totalPacketsSent := 0, totalPacketsReceived := 0, totalCollisions := 0, totalDelay := 0 }

/-- Every counter fits its `uint32_t` variable. -/
def Counters.WellFormed (s : Counters) : Prop :=
  s.totalPacketsSent < 2 ^ 32 ∧ s.totalPacketsReceived < 2 ^ 32 ∧ s.totalCollisions < 2 ^ 32

instance (s : Counters) : Decidable s.WellFormed := by
  unfold Counters.WellFormed
  infer_instance

/-- Modelled from the spec: the conversion of the packet identifier (a `uint64_t`) to the missing
framework type `Time`, which the expression `Simulator::Now() - packet->GetUid()` applies
implicitly. The spec notes that the identifier is taken for a timestamp: its 64 bits are
read as a signed tick count. -/
def uidAsTime (uid : Nat) : Time :=
  if uid % 2 ^ 64 < 2 ^ 63 then ((uid % 2 ^ 64 : Nat) : Int)
  else ((uid % 2 ^ 64 : Nat) : Int) - 2 ^ 64

/-- `PacketSentCallback`: `totalPacketsSent++`. -/
def PacketSentCallback (s : Counters) : Counters :=
  { s with totalPacketsSent := (s.totalPacketsSent + 1) % 2 ^ 32 }

/-- The local `delay` of `PacketReceivedCallback`: `Simulator::Now() - packet->GetUid()`. -/
def receivedDelay (now : Time) (uid : Nat) : Time :=
  now - uidAsTime uid

/-- `PacketReceivedCallback`: `totalPacketsReceived++`, then `totalDelay += delay`, for a packet
with identifier `uid` received when the simulator clock reads `now`. -/
def PacketReceivedCallback (now : Time) (uid : Nat) (s : Counters) : Counters :=
  { s with
    totalPacketsReceived := (s.totalPacketsReceived + 1) % 2 ^ 32
    totalDelay := s.totalDelay + receivedDelay now uid }

/-- `PhyCollisionCallback`: `totalCollisions++`. -/
def PhyCollisionCallback (s : Counters) : Counters :=
  { s with totalCollisions := (s.totalCollisions + 1) % 2 ^ 32 }

/-- One firing of a trace source that `main` connects on device 0 (source lines 89-91):
`PhyTxEnd` runs `PacketSentCallback`, `PhyRxEnd` runs `PacketReceivedCallback` (at clock value
`now`, for the packet with identifier `uid`), `PhyTxDrop` runs `PhyCollisionCallback`. -/
inductive TraceEvent where
  | phyTxEnd
  | phyRxEnd (now : Time) (uid : Nat)
  | phyTxDrop
  deriving DecidableEq, Repr

/-- The callback connected to the trace source that fired. -/
def fire (s : Counters) : TraceEvent → Counters
  | .phyTxEnd => PacketSentCallback s
  | .phyRxEnd now uid => PacketReceivedCallback now uid s
  | .phyTxDrop => PhyCollisionCallback s

/-- The counters after `Simulator::Run()` fired the given trace events in order, starting from a
given counter state. -/
def runFrom (s : Counters) (evs : List TraceEvent) : Counters :=
  evs.foldl fire s

/-- The counters at the end of a run that starts from the initialised globals. -/
def runTrace (evs : List TraceEvent) : Counters :=
  runFrom initialCounters evs

/-- Number of `PhyTxEnd` firings in a trace. -/
def sentEvents (evs : List TraceEvent) : Nat :=
  evs.countP (fun e => e = TraceEvent.phyTxEnd)

/-- Number of `PhyRxEnd` firings in a trace. -/
def receivedEvents (evs : List TraceEvent) : Nat :=
  evs.countP (fun e => match e with
    | .phyRxEnd _ _ => true
    | _ => false)

/-- Number of `PhyTxDrop` firings in a trace. -/
def collisionEvents (evs : List TraceEvent) : Nat :=
  evs.countP (fun e => e = TraceEvent.phyTxDrop)

/-- Sum of the delays computed by the `PhyRxEnd` firings of a trace. -/
def delaySum : List TraceEvent → Time
  | [] => 0
  | .phyRxEnd now uid :: evs => receivedDelay now uid + delaySum evs
  | _ :: evs => delaySum evs

/-! ## Binary64 arithmetic -/

/-- Nearest integer to a rational, a tie going to the even neighbour. -/
def roundHalfEven (x : ℚ) : ℤ :=
  if x - ⌊x⌋ < 1 / 2 then ⌊x⌋
  else if 1 / 2 < x - ⌊x⌋ then ⌊x⌋ + 1
  else if ⌊x⌋ % 2 = 0 then ⌊x⌋ else ⌊x⌋ + 1

/-- Nearest multiple of `2 ^ e`, ties to the even multiple. -/
def roundAt (e : ℤ) (q : ℚ) : ℚ :=
  (roundHalfEven (q / 2 ^ e) : ℚ) * 2 ^ e

/-- Exponent of the spacing of binary64 values around `q`: 53 significant bits, and the fixed
spacing `2 ^ (-1074)` in the subnormal range. -/
def quantumExp (q : ℚ) : ℤ :=
  max (Int.log 2 |q| - 52) (-1074)

/-- Round-to-nearest, ties-to-even, with 53 bits of precision and no upper bound on the
exponent. -/
def roundQ (q : ℚ) : ℚ :=
  roundAt (quantumExp q) q

/-- The rationals with a 53-bit significand and an exponent no smaller than the subnormal one:
the values that `roundQ` produces. -/
def IsBinary64 (r : ℚ) : Prop :=
  ∃ m e : ℤ, |m| < 2 ^ 53 ∧ -1074 ≤ e ∧ r = m * 2 ^ e

/-- A `double`: a finite value (the rational it denotes, `fin 0` being the positive zero), the
negative zero, an infinity with its sign, or a NaN. -/
inductive Dbl where
  | fin (value : ℚ)
  | negZero
  | inf (negative : Bool)
  | nan
  deriving DecidableEq, Repr

/-- The sign bit of a `double`. -/
def Dbl.signBit : Dbl → Bool
  | .fin q => decide (q < 0)
  | .negZero => true
  | .inf negative => negative
  | .nan => false

/-- The number that a finite `double` denotes; both zeros denote `0`. -/
def Dbl.finite? : Dbl → Option ℚ
  | .fin q => some q
  | .negZero => some 0
  | _ => none

/-- The zero with the given sign bit. -/
def Dbl.signedZero (negative : Bool) : Dbl :=
  if negative then Dbl.negZero else Dbl.fin 0

/-- The `double` that an exact non-zero real result rounds to: the nearest binary64 value, an
infinity when the rounded magnitude reaches `2 ^ 1024`, a zero with the sign of the exact result
when it underflows; the exact result `0` gives the positive zero. -/
def roundToDouble (q : ℚ) : Dbl :=
  if 2 ^ 1024 ≤ |roundQ q| then Dbl.inf (decide (q < 0))
  else if roundQ q = 0 then Dbl.signedZero (decide (q < 0))
  else Dbl.fin (roundQ q)

/-- The value of the `double` nearest to one tenth (see `roundToDouble_one_tenth`). -/
def tenth : ℚ := 3602879701896397 / 36028797018963968

/-- The literal `0` (and `0.0`) as a `double`. -/
def Dbl.zero : Dbl := Dbl.fin 0

/-- Conversion of a `uint32_t` to `double`. It is exact, every 32-bit value being below
`2 ^ 53` (see `roundToDouble_natCast`). -/
def ofU32 (n : Nat) : Dbl := Dbl.fin (n : ℚ)

/-- Whether a `double` is less than zero. -/
def Dbl.isNeg : Dbl → Bool
  | .fin q => decide (q < 0)
  | .negZero => false
  | .inf negative => negative
  | .nan => false

/-- The `double` product `x * y`. An exact product `0` takes the exclusive or of the sign bits of
the factors as its sign; zero times infinity is a NaN. -/
def Dbl.mul (x y : Dbl) : Dbl :=
  match x.finite?, y.finite? with
  | some a, some b =>
    if a * b = 0 then Dbl.signedZero (xor x.signBit y.signBit) else roundToDouble (a * b)
  | some a, none =>
    match y with
    | .inf t => if a = 0 then .nan else .inf (xor x.signBit t)
    | _ => .nan
  | none, some b =>
    match x with
    | .inf s => if b = 0 then .nan else .inf (xor s y.signBit)
    | _ => .nan
  | none, none =>
    match x, y with
    | .inf s, .inf t => .inf (xor s t)
    | _, _ => .nan

/-- The `double` quotient `x / y`, with the evaluation of a division by zero made observable:
the result is `none` exactly when the divisor is a zero. -/
def Dbl.div (x y : Dbl) : Option Dbl :=
  match y.finite? with
  | some b =>
    if b = 0 then none
    else
      match x with
      | .fin a =>
        some (if a = 0 then Dbl.signedZero (xor x.signBit y.signBit) else roundToDouble (a / b))
      | .negZero => some (Dbl.signedZero (xor x.signBit y.signBit))
      | .inf s => some (.inf (xor s y.signBit))
      | .nan => some .nan
  | none =>
    match x, y with
    | .fin _, .inf t => some (Dbl.signedZero (xor x.signBit t))
    | .negZero, .inf t => some (Dbl.signedZero (xor x.signBit t))
    | _, _ => some .nan

/-! ## Metrics calculation (source lines 97-100) -/

/-- The locals `avgDelay`, `PDR` and `collisionRate` of `main`. -/
structure Metrics where
  avgDelay : Dbl
  PDR : Dbl
  collisionRate : Dbl
  deriving DecidableEq, Repr

/-- The expression `(double)a / b * 100` of source lines 99 and 100. -/
def percentOf (a b : Nat) : Option Dbl :=
  (Dbl.div (ofU32 a) (ofU32 b)).map (fun x => Dbl.mul x (Dbl.fin 100))

/-- The guarded quotient of source line 98:
`totalPacketsReceived > 0 ? totalDelay.GetSeconds() / totalPacketsReceived : 0`. `getSeconds` is
the framework method `Time::GetSeconds`, which is not part of the sources. -/
def avgDelayExpr (getSeconds : Time → Dbl) (s : Counters) : Option Dbl :=
  if 0 < s.totalPacketsReceived
    then Dbl.div (getSeconds s.totalDelay) (ofU32 s.totalPacketsReceived)
    else some Dbl.zero

/-- The guarded percentage of source lines 99 and 100: `b > 0 ? (double)a / b * 100 : 0`. -/
def guardedPercent (a b : Nat) : Option Dbl :=
  if 0 < b then percentOf a b else some Dbl.zero

/-- The metrics calculation of `main`. The result is `none` when a division by zero is
evaluated. -/
def metrics (getSeconds : Time → Dbl) (s : Counters) : Option Metrics :=
  (avgDelayExpr getSeconds s).bind fun avgDelay =>
  (guardedPercent s.totalPacketsReceived s.totalPacketsSent).bind fun PDR =>
  (guardedPercent s.totalCollisions s.totalPacketsSent).bind fun collisionRate =>
  some { avgDelay := avgDelay, PDR := PDR, collisionRate := collisionRate }

/-! ## Node layout (source lines 46-58) -/

/-- The framework's `Vector` of three `double` coordinates. -/
structure Vector where
  x : Dbl
  y : Dbl
  z : Dbl
  deriving DecidableEq, Repr

/-- The state of a node's `ConstantVelocityMobilityModel`: position and velocity. -/
structure MobilityModel where
  position : Vector
  velocity : Vector
  deriving DecidableEq, Repr

/-- A freshly installed mobility model: at the origin, at rest. -/
def MobilityModel.installed : MobilityModel :=
  { position := ⟨Dbl.zero, Dbl.zero, Dbl.zero⟩, velocity := ⟨Dbl.zero, Dbl.zero, Dbl.zero⟩ }

/-- The mobility state that the body of the layout loop gives node `i`: position
`Vector(i * vehicleDistance, 0.0, 0.0)` and velocity `Vector(vehicleSpeed, 0.0, 0.0)`. -/
def placedNode (vehicleDistance vehicleSpeed : Dbl) (i : Nat) : MobilityModel :=
  { position := ⟨Dbl.mul (ofU32 i) vehicleDistance, Dbl.zero, Dbl.zero⟩
    velocity := ⟨vehicleSpeed, Dbl.zero, Dbl.zero⟩ }

/-- The body of the layout loop for index `i`: `SetPosition` and `SetVelocity` on node `i`. -/
def layoutStep (vehicleDistance vehicleSpeed : Dbl) (nodes : List MobilityModel) (i : Nat) :
    List MobilityModel :=
  nodes.set i (placedNode vehicleDistance vehicleSpeed i)

/-- The loop `for (uint32_t i = 0; i < vehicles.GetN(); ++i)` over the installed nodes. -/
def layoutLoop (vehicleDistance vehicleSpeed : Dbl) (nodes : List MobilityModel) :
    List MobilityModel :=
  (List.range nodes.length).foldl (layoutStep vehicleDistance vehicleSpeed) nodes

/-- The nodes after `vehicles.Create(numVehicles)`, `mobility.Install(vehicles)` and the layout
loop. -/
def layout (numVehicles : Nat) (vehicleDistance vehicleSpeed : Dbl) : List MobilityModel :=
  layoutLoop vehicleDistance vehicleSpeed (List.replicate numVehicles MobilityModel.installed)

/-- The x-coordinate of the position of node `i`, when it is a finite number. -/
def positionX (nodes : List MobilityModel) (i : Nat) : Option ℚ :=
  match nodes[i]? with
  | some m => m.position.x.finite?
  | none => none

/-- The command-line parameters of `main`, after `cmd.Parse`. -/
structure Params where
  numVehicles : Nat
  vehicleSpeed : Dbl
  vehicleDistance : Dbl
  simTime : Dbl
  deriving DecidableEq, Repr

/-- The default values of the parameters. -/
def Params.default : Params :=
  { numVehicles := 20, vehicleSpeed := Dbl.fin 20, vehicleDistance := Dbl.fin 10,
    simTime := Dbl.fin 10 }

/-- The parts of the simulation framework that `main` relies on and that are not in the
sources. `run nodes simTime` is the run of the event loop over the laid-out nodes up to the stop
time: the trace-source firings on device 0 in order, or `none` when a framework call does not
return. `getSeconds` is `Time::GetSeconds`; `showDouble` is the stream formatting of a
`double`. -/
structure Framework where
  run : List MobilityModel → Dbl → Option (List TraceEvent)
  getSeconds : Time → Dbl
  showDouble : Dbl → String

/-- Stream formatting of a `uint32_t`: its decimal digits. -/
def showU32 (n : Nat) : String := Nat.repr n

/-- The number that a string of decimal digits denotes. -/
def readDecimal (s : String) : Nat :=
  s.data.foldl (fun acc c => 10 * acc + (c.toNat - 48)) 0

/-- A list of decimal digits without its trailing zeros. -/
def stripZeros (cs : List Char) : List Char :=
  (cs.reverse.dropWhile (fun c => c == '0')).reverse

/-- A positive number scaled to six digits before the decimal point of its leading digit and
rounded to the nearest integer, ties to even. -/
def sixDigits (a : ℚ) : ℤ :=
  roundHalfEven (a / 10 ^ (Int.log 10 a - 5))

/-- The decimal exponent of a positive number rounded to six significant digits. -/
def decimalExp (a : ℚ) : ℤ :=
  if sixDigits a = 10 ^ 6 then Int.log 10 a + 1 else Int.log 10 a

/-- The six significant digits of a positive number, as an integer from `100000` to `999999`. -/
def decimalMantissa (a : ℚ) : ℕ :=
  if sixDigits a = 10 ^ 6 then 10 ^ 5 else (sixDigits a).toNat

/-- The text of a positive number with decimal exponent `X` and six significant digits `m` in the
default floating-point format of an output stream: fixed notation when `-4 ≤ X < 6` and
scientific notation otherwise, with trailing zeros and a trailing decimal point removed. -/
def renderG (X : ℤ) (m : ℕ) : String :=
  if -4 ≤ X ∧ X ≤ 5 then
    if 0 ≤ X then
      String.mk ((Nat.toDigits 10 m).take (X.toNat + 1) ++
        (if stripZeros ((Nat.toDigits 10 m).drop (X.toNat + 1)) = [] then []
          else '.' :: stripZeros ((Nat.toDigits 10 m).drop (X.toNat + 1))))
    else
      String.mk ('0' :: '.' :: (List.replicate ((-X).toNat - 1) '0'
        ++ stripZeros (Nat.toDigits 10 m)))
  else
    String.mk ((stripZeros (Nat.toDigits 10 m)).take 1 ++
      (if (stripZeros (Nat.toDigits 10 m)).drop 1 = [] then []
        else '.' :: (stripZeros (Nat.toDigits 10 m)).drop 1) ++
      ('e' :: (if X < 0 then '-' else '+') ::
        (if X.natAbs < 10 then '0' :: Nat.toDigits 10 X.natAbs else Nat.toDigits 10 X.natAbs)))

/-- The text that an output stream in its default state writes for a `double`: six significant
digits, as C's `%g` conversion does. -/
def streamDouble : Dbl → String
  | .nan => "nan"
  | .inf negative => if negative then "-inf" else "inf"
  | .negZero => "-0"
  | .fin q =>
    if q = 0 then "0"
    else (if q < 0 then "-" else "") ++ renderG (decimalExp |q|) (decimalMantissa |q|)

/-- The eight output statements of source lines 103-110, one line each. -/
def printResults (showDouble : Dbl → String) (p : Params) (s : Counters) (m : Metrics) :
    List String :=
  [ "Number of Vehicles: " ++ showU32 p.numVehicles,
    "Vehicle Speed: " ++ showDouble p.vehicleSpeed ++ " m/s",
    "Vehicle Distance: " ++ showDouble p.vehicleDistance ++ " meters",
    "Total Packets Sent: " ++ showU32 s.totalPacketsSent,
    "Total Packets Received: " ++ showU32 s.totalPacketsReceived,
    "Packet Delivery Ratio (PDR): " ++ showDouble m.PDR ++ "%",
    "Average Delay: " ++ showDouble m.avgDelay ++ " seconds",
    "Collision Rate: " ++ showDouble m.collisionRate ++ "%" ]

/-- What a terminated run of the program leaves behind: its exit code and the lines written to
the standard output. -/
structure Outcome where
  exitCode : Int
  output : List String
  deriving DecidableEq, Repr

/-- The function `main`: lay out the nodes, run the framework, compute the metrics, print the
report, return `0`. The result is `none` when a framework call does not return or a division
by zero is evaluated. -/
def main (fw : Framework) (p : Params) : Option Outcome :=
  (fw.run (layout p.numVehicles p.vehicleDistance p.vehicleSpeed) p.simTime).bind fun evs =>
  (metrics fw.getSeconds (runTrace evs)).bind fun m =>
  some { exitCode := 0, output := printResults fw.showDouble p (runTrace evs) m }

/-- The invalid arguments listed by the spec: zero vehicles, a negative speed, a zero or negative
simulation time. -/
def InvalidArgument (p : Params) : Prop :=
  p.numVehicles = 0 ∨ p.vehicleSpeed.isNeg = true ∨ p.simTime.isNeg = true
    ∨ p.simTime.finite? = some 0

instance (p : Params) : Decidable (InvalidArgument p) := by
  unfold InvalidArgument
  infer_instance

/-- A framework whose run fires no trace source. -/
def silentFramework : Framework :=
  { run := fun _ _ => some []
    getSeconds := fun t => roundToDouble ((t : ℚ) / 1000000000)
    showDouble := streamDouble }

/-- A framework whose run fires three sends, one reception (of the packet with identifier `0`,
at 2.5 s) and one collision on device 0. -/
def sampleFramework : Framework :=
  { run := fun _ _ => some [TraceEvent.phyTxEnd, TraceEvent.phyRxEnd 2500000000 0,
      TraceEvent.phyTxEnd, TraceEvent.phyTxDrop, TraceEvent.phyTxEnd]
    getSeconds := fun t => roundToDouble ((t : ℚ) / 1000000000)
    showDouble := streamDouble }

/-- The parameters of a run with three vehicles at 12.5 m/s, ten metres apart, for three
seconds. -/
def sampleParams : Params :=
  { numVehicles := 3, vehicleSpeed := Dbl.fin (25 / 2), vehicleDistance := Dbl.fin 10,
    simTime := Dbl.fin 3 }

/-! ## Rounding to the nearest integer and to a multiple of a power of two -/

theorem roundHalfEven_intCast (n : ℤ) : roundHalfEven (n : ℚ) = n := by
  simp [roundHalfEven]

theorem roundHalfEven_le {x : ℚ} {n : ℤ} (h : x ≤ n) : roundHalfEven x ≤ n := by
  have h1 : (⌊x⌋ : ℚ) ≤ x := Int.floor_le x
  have h3 : ⌊x⌋ ≤ n := by exact_mod_cast h1.trans h
  have h4 : ¬ x - ⌊x⌋ < 1 / 2 → ⌊x⌋ + 1 ≤ n := by
    intro h5
    have h6 : (⌊x⌋ : ℚ) < n := by linarith
    have h7 : ⌊x⌋ < n := by exact_mod_cast h6
    omega
  unfold roundHalfEven
  split_ifs with a b c
  · exact h3
  · exact h4 a
  · exact h3
  · exact h4 a

theorem le_roundHalfEven {x : ℚ} {n : ℤ} (h : (n : ℚ) ≤ x) : n ≤ roundHalfEven x := by
  have h3 : n ≤ ⌊x⌋ := Int.le_floor.mpr h
  unfold roundHalfEven
  split_ifs <;> omega

theorem abs_roundHalfEven_sub_le (x : ℚ) : |(roundHalfEven x : ℚ) - x| ≤ 1 / 2 := by
  have h1 : (⌊x⌋ : ℚ) ≤ x := Int.floor_le x
  have h2 : x < ⌊x⌋ + 1 := Int.lt_floor_add_one x
  rw [abs_le]
  unfold roundHalfEven
  split_ifs with a b c
  · constructor <;> linarith
  · push_cast; constructor <;> linarith
  · constructor <;> linarith
  · push_cast; constructor <;> linarith

theorem roundHalfEven_nearest (x : ℚ) (n : ℤ) :
    |(roundHalfEven x : ℚ) - x| ≤ |(n : ℚ) - x| := by
  have h1 : (⌊x⌋ : ℚ) ≤ x := Int.floor_le x
  have h2 : x < ⌊x⌋ + 1 := Int.lt_floor_add_one x
  have hn : (n : ℚ) ≤ ⌊x⌋ ∨ (⌊x⌋ : ℚ) + 1 ≤ n := by
    rcases le_or_lt n ⌊x⌋ with h | h
    · left; exact_mod_cast h
    · right; exact_mod_cast h
  unfold roundHalfEven
  split_ifs with a b c
  · rcases hn with h | h
    · rw [abs_of_nonpos (by linarith), abs_of_nonpos (by linarith)]; linarith
    · rw [abs_of_nonpos (by linarith), abs_of_nonneg (by linarith)]; linarith
  · push_cast
    rcases hn with h | h
    · rw [abs_of_nonneg (by linarith), abs_of_nonpos (by linarith)]; linarith
    · rw [abs_of_nonneg (by linarith), abs_of_nonneg (by linarith)]; linarith
  · rcases hn with h | h
    · rw [abs_of_nonpos (by linarith), abs_of_nonpos (by linarith)]; linarith
    · rw [abs_of_nonpos (by linarith), abs_of_nonneg (by linarith)]; linarith
  · push_cast
    rcases hn with h | h
    · rw [abs_of_nonneg (by linarith), abs_of_nonpos (by linarith)]; linarith
    · rw [abs_of_nonneg (by linarith), abs_of_nonneg (by linarith)]; linarith

theorem roundHalfEven_eval {x : ℚ} (f : ℤ) (h1 : (f : ℚ) ≤ x) (h2 : x < f + 1) :
    roundHalfEven x = if x - f < 1 / 2 then f else if 1 / 2 < x - f then f + 1
      else if f % 2 = 0 then f else f + 1 := by
  have : ⌊x⌋ = f := Int.floor_eq_iff.mpr ⟨h1, h2⟩
  simp only [roundHalfEven, this]

theorem two_zpow_pos (k : ℤ) : (0 : ℚ) < 2 ^ k := zpow_pos (by norm_num) k

theorem div_quantum_isInt (n k e : ℤ) (h : e ≤ k) :
    (n : ℚ) * 2 ^ k / 2 ^ e = ((n * 2 ^ (k - e).toNat : ℤ) : ℚ) := by
  have h2 : (2 : ℚ) ≠ 0 := by norm_num
  have hk : k = e + ((k - e).toNat : ℤ) := by omega
  push_cast
  conv_lhs => rw [hk, zpow_add₀ h2, zpow_natCast]
  field_simp
  ring

theorem roundAt_exact {q : ℚ} {n k e : ℤ} (hq : q = n * 2 ^ k) (h : e ≤ k) :
    roundAt e q = q := by
  have hpos := two_zpow_pos e
  unfold roundAt
  have h1 : q / 2 ^ e = ((n * 2 ^ (k - e).toNat : ℤ) : ℚ) := by
    rw [hq]; exact div_quantum_isInt n k e h
  rw [h1, roundHalfEven_intCast, ← h1]
  field_simp

theorem roundAt_le {q : ℚ} {n k e : ℤ} (hq : q ≤ n * 2 ^ k) (h : e ≤ k) :
    roundAt e q ≤ n * 2 ^ k := by
  have hpos := two_zpow_pos e
  unfold roundAt
  have h1 : (n : ℚ) * 2 ^ k / 2 ^ e = ((n * 2 ^ (k - e).toNat : ℤ) : ℚ) :=
    div_quantum_isInt n k e h
  have h2 : q / 2 ^ e ≤ ((n * 2 ^ (k - e).toNat : ℤ) : ℚ) := by
    rw [← h1]; exact div_le_div_of_nonneg_right hq hpos.le
  have h3 : ((roundHalfEven (q / 2 ^ e) : ℤ) : ℚ) ≤ ((n * 2 ^ (k - e).toNat : ℤ) : ℚ) := by
    exact_mod_cast roundHalfEven_le h2
  calc (roundHalfEven (q / 2 ^ e) : ℚ) * 2 ^ e
      ≤ ((n * 2 ^ (k - e).toNat : ℤ) : ℚ) * 2 ^ e := mul_le_mul_of_nonneg_right h3 hpos.le
    _ = n * 2 ^ k := by rw [← h1]; field_simp

theorem le_roundAt {q : ℚ} {n k e : ℤ} (hq : (n : ℚ) * 2 ^ k ≤ q) (h : e ≤ k) :
    (n : ℚ) * 2 ^ k ≤ roundAt e q := by
  have hpos := two_zpow_pos e
  unfold roundAt
  have h1 : (n : ℚ) * 2 ^ k / 2 ^ e = ((n * 2 ^ (k - e).toNat : ℤ) : ℚ) :=
    div_quantum_isInt n k e h
  have h2 : ((n * 2 ^ (k - e).toNat : ℤ) : ℚ) ≤ q / 2 ^ e := by
    rw [← h1]; exact div_le_div_of_nonneg_right hq hpos.le
  have h3 : ((n * 2 ^ (k - e).toNat : ℤ) : ℚ) ≤ ((roundHalfEven (q / 2 ^ e) : ℤ) : ℚ) := by
    exact_mod_cast le_roundHalfEven h2
  calc (n : ℚ) * 2 ^ k = ((n * 2 ^ (k - e).toNat : ℤ) : ℚ) * 2 ^ e := by rw [← h1]; field_simp
    _ ≤ (roundHalfEven (q / 2 ^ e) : ℚ) * 2 ^ e := mul_le_mul_of_nonneg_right h3 hpos.le

theorem abs_roundAt_sub_le (e : ℤ) (q : ℚ) : |roundAt e q - q| ≤ 2 ^ e / 2 := by
  have hpos := two_zpow_pos e
  unfold roundAt
  have h1 := abs_roundHalfEven_sub_le (q / 2 ^ e)
  have h2 : (roundHalfEven (q / 2 ^ e) : ℚ) * 2 ^ e - q
      = ((roundHalfEven (q / 2 ^ e) : ℚ) - q / 2 ^ e) * 2 ^ e := by
    field_simp
  rw [h2, abs_mul, abs_of_pos hpos]
  calc |(roundHalfEven (q / 2 ^ e) : ℚ) - q / 2 ^ e| * 2 ^ e ≤ 1 / 2 * 2 ^ e :=
        mul_le_mul_of_nonneg_right h1 hpos.le
    _ = 2 ^ e / 2 := by ring

theorem roundAt_nearest (e : ℤ) (q : ℚ) (n : ℤ) :
    |roundAt e q - q| ≤ |(n : ℚ) * 2 ^ e - q| := by
  have hpos := two_zpow_pos e
  have h := roundHalfEven_nearest (q / 2 ^ e) n
  have e1 : roundAt e q - q = ((roundHalfEven (q / 2 ^ e) : ℚ) - q / 2 ^ e) * 2 ^ e := by
    unfold roundAt; field_simp
  have e2 : (n : ℚ) * 2 ^ e - q = ((n : ℚ) - q / 2 ^ e) * 2 ^ e := by field_simp
  rw [e1, e2, abs_mul, abs_mul, abs_of_pos hpos]
  exact mul_le_mul_of_nonneg_right h hpos.le

/-- A multiple of `2 ^ k` is no nearer to `q` than `roundAt e q` when `e ≤ k`. -/
theorem roundAt_nearest_of_le (e k : ℤ) (q : ℚ) (n : ℤ) (h : e ≤ k) :
    |roundAt e q - q| ≤ |(n : ℚ) * 2 ^ k - q| := by
  have hpos := two_zpow_pos e
  have h1 : (n : ℚ) * 2 ^ k = ((n * 2 ^ (k - e).toNat : ℤ) : ℚ) * 2 ^ e := by
    rw [← div_quantum_isInt n k e h]; field_simp
  rw [h1]
  exact roundAt_nearest e q _

/-! ## Binary64 rounding -/

theorem log_abs_lt_iff {q : ℚ} (hq : q ≠ 0) (k : ℤ) : Int.log 2 |q| < k ↔ |q| < 2 ^ k := by
  have := Int.lt_zpow_iff_log_lt (R := ℚ) (b := 2) (by norm_num) (x := k) (abs_pos.mpr hq)
  simpa using this.symm

theorem le_log_abs_iff {q : ℚ} (hq : q ≠ 0) (k : ℤ) : k ≤ Int.log 2 |q| ↔ 2 ^ k ≤ |q| := by
  have := Int.zpow_le_iff_le_log (R := ℚ) (b := 2) (by norm_num) (x := k) (abs_pos.mpr hq)
  simpa using this.symm

theorem quantumExp_le {q : ℚ} {k : ℤ} (hq : q ≠ 0) (h : |q| < 2 ^ (k + 53)) (hk : -1074 ≤ k) :
    quantumExp q ≤ k := by
  have := (log_abs_lt_iff hq (k + 53)).mpr h
  unfold quantumExp
  exact max_le (by omega) hk

theorem quantumExp_eq {q : ℚ} {k : ℤ} (h1 : 2 ^ k ≤ |q|) (h2 : |q| < 2 ^ (k + 1)) :
    quantumExp q = max (k - 52) (-1074) := by
  have hq : q ≠ 0 := by
    rintro rfl
    simp at h1
    exact absurd h1 (not_le.mpr (two_zpow_pos k))
  have a := (le_log_abs_iff hq k).mpr h1
  have b := (log_abs_lt_iff hq (k + 1)).mpr h2
  have : Int.log 2 |q| = k := by omega
  unfold quantumExp
  rw [this]

theorem two_zpow_quantumExp_le {q : ℚ} (h : 2 ^ (-1022 : ℤ) ≤ |q|) :
    (2 : ℚ) ^ quantumExp q ≤ |q| * 2 ^ (-52 : ℤ) := by
  have hq : q ≠ 0 := by
    rintro rfl
    simp at h
    exact absurd h (not_le.mpr (by positivity))
  have a := (le_log_abs_iff hq (-1022)).mpr h
  have e : quantumExp q = Int.log 2 |q| - 52 := by
    unfold quantumExp
    exact max_eq_left (by omega)
  have b := (le_log_abs_iff hq (Int.log 2 |q|)).mp le_rfl
  rw [e, sub_eq_add_neg, zpow_add₀ (by norm_num : (2 : ℚ) ≠ 0)]
  exact mul_le_mul_of_nonneg_right b (two_zpow_pos _).le

/-- Above the subnormal range the quantum of `q` is `2 ^ 52` times smaller than the power of two
just below `|q|`. -/
theorem two_zpow_quantumExp_add_le {q : ℚ} (hq : q ≠ 0) (h : -1074 < quantumExp q) :
    (2 : ℚ) ^ (quantumExp q + 52) ≤ |q| := by
  have e : quantumExp q = Int.log 2 |q| - 52 := by
    unfold quantumExp at h ⊢
    rcases le_total (Int.log 2 |q| - 52) (-1074) with h1 | h1
    · rw [max_eq_right h1] at h; omega
    · exact max_eq_left h1
  rw [e]
  have := (le_log_abs_iff hq (Int.log 2 |q|)).mp le_rfl
  simpa using this

theorem abs_lt_two_zpow_quantumExp (q : ℚ) : |q| < 2 ^ (quantumExp q + 53) := by
  by_cases hq : q = 0
  · rw [hq, abs_zero]; exact two_zpow_pos _
  · have h1 := (log_abs_lt_iff hq (Int.log 2 |q| + 1)).mp (by omega)
    have h2 : Int.log 2 |q| + 1 ≤ quantumExp q + 53 := by
      have : Int.log 2 |q| - 52 ≤ quantumExp q := le_max_left _ _
      omega
    exact lt_of_lt_of_le h1 (zpow_le_zpow_right₀ (by norm_num) h2)

theorem roundQ_zero : roundQ 0 = 0 := by
  simp [roundQ, roundAt, roundHalfEven]

theorem roundQ_exact {q : ℚ} {n k : ℤ} (hq : q = n * 2 ^ k) (hn : |n| < 2 ^ 53)
    (hk : -1074 ≤ k) : roundQ q = q := by
  by_cases h0 : q = 0
  · rw [h0, roundQ_zero]
  · refine roundAt_exact hq (quantumExp_le h0 ?_ hk)
    have hn2 : |(n : ℚ)| < 2 ^ 53 := by exact_mod_cast hn
    rw [hq, abs_mul, abs_of_pos (two_zpow_pos k), zpow_add₀ (by norm_num : (2 : ℚ) ≠ 0), mul_comm]
    have h53 : (2 : ℚ) ^ (53 : ℤ) = 2 ^ 53 := by norm_num
    rw [h53]
    exact mul_lt_mul_of_pos_left hn2 (two_zpow_pos k)

theorem roundQ_intCast {n : ℤ} (hn : |n| < 2 ^ 53) : roundQ (n : ℚ) = n :=
  roundQ_exact (k := 0) (by simp) hn (by norm_num)

theorem roundQ_eval {q : ℚ} (k m : ℤ) (h1 : 2 ^ k ≤ |q|) (h2 : |q| < 2 ^ (k + 1))
    (hm : roundHalfEven (q / 2 ^ max (k - 52) (-1074)) = m) :
    roundQ q = m * 2 ^ max (k - 52) (-1074) := by
  unfold roundQ roundAt
  rw [quantumExp_eq h1 h2, hm]

theorem roundQ_le {q : ℚ} {n k : ℤ} (hq : q ≤ n * 2 ^ k) (hlt : |q| < 2 ^ (k + 53))
    (hk : -1074 ≤ k) : roundQ q ≤ n * 2 ^ k := by
  by_cases h0 : q = 0
  · rw [h0, roundQ_zero]; rw [h0] at hq; exact hq
  · exact roundAt_le hq (quantumExp_le h0 hlt hk)

theorem le_roundQ {q : ℚ} {n k : ℤ} (hq : (n : ℚ) * 2 ^ k ≤ q) (hlt : |q| < 2 ^ (k + 53))
    (hk : -1074 ≤ k) : (n : ℚ) * 2 ^ k ≤ roundQ q := by
  by_cases h0 : q = 0
  · rw [h0, roundQ_zero]; rw [h0] at hq; exact hq
  · exact le_roundAt hq (quantumExp_le h0 hlt hk)

theorem abs_roundQ_sub_le {q : ℚ} (h : 2 ^ (-1022 : ℤ) ≤ |q|) :
    |roundQ q - q| ≤ |q| * 2 ^ (-53 : ℤ) := by
  have h1 := abs_roundAt_sub_le (quantumExp q) q
  have h2 := two_zpow_quantumExp_le h
  have h3 : |q| * (2 : ℚ) ^ (-53 : ℤ) = |q| * 2 ^ (-52 : ℤ) / 2 := by
    have : (2 : ℚ) ^ (-53 : ℤ) = 2 ^ (-52 : ℤ) / 2 := by norm_num
    rw [this]; ring
  unfold roundQ
  rw [h3]
  exact h1.trans (div_le_div_of_nonneg_right h2 (by norm_num))

/-- Rounding a positive normal number keeps it within a factor `1 ± 2 ^ (-53)`. -/
theorem roundQ_bounds {q : ℚ} (h : 2 ^ (-1022 : ℤ) ≤ q) :
    q * (1 - 1 / 2 ^ 53) ≤ roundQ q ∧ roundQ q ≤ q * (1 + 1 / 2 ^ 53) := by
  have hpos : (0 : ℚ) < q := lt_of_lt_of_le (two_zpow_pos _) h
  have h1 := abs_roundQ_sub_le (q := q) (by rwa [abs_of_pos hpos])
  rw [abs_of_pos hpos, abs_le] at h1
  have h3 : (2 : ℚ) ^ (-53 : ℤ) = 1 / 2 ^ 53 := by norm_num
  rw [h3] at h1
  constructor <;> nlinarith [h1.1, h1.2]

/-- The rounded value is a nearest one: no value with a 53-bit significand is nearer to `q`. -/
theorem roundQ_nearest (q : ℚ) {r : ℚ} (hr : IsBinary64 r) : |roundQ q - q| ≤ |r - q| := by
  obtain ⟨m, e, hm, he, rfl⟩ := hr
  by_cases hq : q = 0
  · rw [hq, roundQ_zero]; simp
  unfold roundQ
  rcases le_or_lt (quantumExp q) e with h | h
  · exact roundAt_nearest_of_le _ _ q m h
  · have hB := two_zpow_quantumExp_add_le hq (by omega)
    have hpos := two_zpow_pos e
    have hm2 : |(m : ℚ)| < 2 ^ 53 := by exact_mod_cast hm
    have hr : |(m : ℚ) * 2 ^ e| < 2 ^ (quantumExp q + 52) := by
      rw [abs_mul, abs_of_pos hpos]
      have h1 : (2 : ℚ) ^ (e + 53) ≤ 2 ^ (quantumExp q + 52) :=
        zpow_le_zpow_right₀ (by norm_num) (by omega)
      have h2 : (2 : ℚ) ^ (e + 53) = 2 ^ 53 * 2 ^ e := by
        rw [zpow_add₀ (by norm_num : (2 : ℚ) ≠ 0), mul_comm]; norm_num
      have h3 : |(m : ℚ)| * 2 ^ e < 2 ^ 53 * 2 ^ e := mul_lt_mul_of_pos_right hm2 hpos
      linarith
    have hgrid : (2 : ℚ) ^ (quantumExp q + 52) = ((2 ^ 52 : ℤ) : ℚ) * 2 ^ quantumExp q := by
      rw [zpow_add₀ (by norm_num : (2 : ℚ) ≠ 0), mul_comm]; norm_num
    have hr2 := abs_lt.mp hr
    rcases lt_or_gt_of_ne hq with hneg | hpos2
    · have h1 := roundAt_nearest (quantumExp q) q (-(2 ^ 52))
      rw [abs_of_neg hneg] at hB
      have e1 : ((-(2 ^ 52) : ℤ) : ℚ) * 2 ^ quantumExp q = -2 ^ (quantumExp q + 52) := by
        rw [hgrid]; push_cast; ring
      have hA : |-(2 : ℚ) ^ (quantumExp q + 52) - q| = -2 ^ (quantumExp q + 52) - q :=
        abs_of_nonneg (by linarith)
      have hR : |(m : ℚ) * 2 ^ e - q| = (m : ℚ) * 2 ^ e - q := abs_of_nonneg (by linarith)
      rw [e1, hA] at h1
      rw [hR]
      linarith
    · have h1 := roundAt_nearest (quantumExp q) q (2 ^ 52)
      rw [abs_of_pos hpos2] at hB
      have hA : |(2 : ℚ) ^ (quantumExp q + 52) - q| = -(2 ^ (quantumExp q + 52) - q) :=
        abs_of_nonpos (by linarith)
      have hR : |(m : ℚ) * 2 ^ e - q| = -((m : ℚ) * 2 ^ e - q) := abs_of_nonpos (by linarith)
      rw [← hgrid, hA] at h1
      rw [hR]
      linarith

/-- The rounded value has a 53-bit significand. -/
theorem roundQ_isBinary64 (q : ℚ) : IsBinary64 (roundQ q) := by
  have hpos := two_zpow_pos (quantumExp q)
  have hlt := abs_lt_two_zpow_quantumExp q
  have hge : -1074 ≤ quantumExp q := le_max_right _ _
  have h53 : (2 : ℚ) ^ (quantumExp q + 53) = 2 ^ 53 * 2 ^ quantumExp q := by
    rw [zpow_add₀ (by norm_num : (2 : ℚ) ≠ 0), mul_comm]; norm_num
  have hx : |q / 2 ^ quantumExp q| < 2 ^ 53 := by
    rw [abs_div, abs_of_pos hpos, div_lt_iff₀ hpos, ← h53]
    exact hlt
  have hx2 := abs_lt.mp hx
  have hup : roundHalfEven (q / 2 ^ quantumExp q) ≤ 2 ^ 53 :=
    roundHalfEven_le (by push_cast; linarith)
  have hlo : -(2 ^ 53) ≤ roundHalfEven (q / 2 ^ quantumExp q) :=
    le_roundHalfEven (by push_cast; linarith)
  unfold roundQ roundAt
  rcases lt_or_eq_of_le hup with h1 | h1
  · rcases lt_or_eq_of_le hlo with h2 | h2
    · exact ⟨_, _, abs_lt.mpr ⟨h2, h1⟩, hge, rfl⟩
    · refine ⟨-(2 ^ 52), quantumExp q + 1, by norm_num, by omega, ?_⟩
      rw [← h2, zpow_add₀ (by norm_num : (2 : ℚ) ≠ 0)]
      push_cast; ring
  · refine ⟨2 ^ 52, quantumExp q + 1, by norm_num, by omega, ?_⟩
    rw [h1, zpow_add₀ (by norm_num : (2 : ℚ) ≠ 0)]
    push_cast; ring

theorem roundToDouble_of_lt {q : ℚ} (h : |roundQ q| < 2 ^ 1024) (h0 : roundQ q ≠ 0) :
    roundToDouble q = Dbl.fin (roundQ q) := by
  unfold roundToDouble
  rw [if_neg (not_le.mpr h), if_neg h0]

theorem roundToDouble_zero : roundToDouble 0 = Dbl.fin 0 := by
  simp [roundToDouble, roundQ_zero, Dbl.signedZero]

theorem roundToDouble_intCast {n : ℤ} (hn : |n| < 2 ^ 53) :
    roundToDouble (n : ℚ) = Dbl.fin n := by
  by_cases h0 : n = 0
  · subst h0
    simpa using roundToDouble_zero
  · have h1 : (n : ℚ) ≠ 0 := by exact_mod_cast h0
    rw [roundToDouble_of_lt, roundQ_intCast hn]
    · rw [roundQ_intCast hn]
      have hn2 : |(n : ℚ)| < 2 ^ 53 := by exact_mod_cast hn
      have : (2 : ℚ) ^ 53 ≤ 2 ^ 1024 := by norm_num
      linarith
    · rw [roundQ_intCast hn]
      exact h1

theorem roundToDouble_natCast {n : ℕ} (hn : n < 2 ^ 53) :
    roundToDouble (n : ℚ) = Dbl.fin (n : ℚ) := by
  have h := roundToDouble_intCast (n := (n : ℤ)) (by
    rw [abs_of_nonneg (by positivity)]
    exact_mod_cast hn)
  simpa using h

theorem roundToDouble_eval {q : ℚ} (k f : ℤ) (r : ℚ) (h1 : 2 ^ k ≤ |q|)
    (h2 : |q| < 2 ^ (k + 1))
    (hf1 : (f : ℚ) ≤ q / 2 ^ max (k - 52) (-1074))
    (hf2 : q / 2 ^ max (k - 52) (-1074) < f + 1)
    (hr : (((if q / 2 ^ max (k - 52) (-1074) - f < 1 / 2 then f
        else if 1 / 2 < q / 2 ^ max (k - 52) (-1074) - f then f + 1
        else if f % 2 = 0 then f else f + 1 : ℤ) : ℚ)) * 2 ^ max (k - 52) (-1074) = r)
    (hlt : |r| < 2 ^ 1024) (hr0 : r ≠ 0) : roundToDouble q = Dbl.fin r := by
  have h := roundQ_eval k _ h1 h2 (roundHalfEven_eval f hf1 hf2)
  rw [hr] at h
  rw [roundToDouble_of_lt (by rw [h]; exact hlt) (by rw [h]; exact hr0), h]

theorem roundToDouble_rel {q : ℚ} (h1 : 2 ^ (-1022 : ℤ) ≤ |q|) (h2 : |q| < 2 ^ 1023) :
    ∃ a : ℚ, roundToDouble q = Dbl.fin a ∧ |a - q| ≤ |q| / 2 ^ 53 := by
  have h53 : |q| < 2 ^ ((1023 : ℤ) + 53) := by
    have : (2 : ℚ) ^ 1023 ≤ 2 ^ ((1023 : ℤ) + 53) := by norm_num
    linarith
  have hq := abs_le.mp h2.le
  have hup := roundQ_le (q := q) (n := 1) (k := 1023) (by norm_num; linarith [hq.2]) h53
    (by norm_num)
  have hlo := le_roundQ (q := q) (n := -1) (k := 1023) (by norm_num; linarith [hq.1]) h53
    (by norm_num)
  have hne : roundQ q ≠ 0 := by
    intro h0
    have h3 := abs_roundQ_sub_le h1
    rw [h0, zero_sub, abs_neg] at h3
    have hpos : 0 < |q| := lt_of_lt_of_le (two_zpow_pos _) h1
    have h4 : (2 : ℚ) ^ (-53 : ℤ) < 1 := by norm_num
    nlinarith
  refine ⟨roundQ q, roundToDouble_of_lt ?_ hne, ?_⟩
  · rw [abs_lt]
    norm_num at hup hlo
    constructor
    · have : -(2 : ℚ) ^ 1024 < -2 ^ 1023 := by norm_num
      linarith
    · have : (2 : ℚ) ^ 1023 < 2 ^ 1024 := by norm_num
      linarith
  · have := abs_roundQ_sub_le h1
    have e : (2 : ℚ) ^ (-53 : ℤ) = 1 / 2 ^ 53 := by norm_num
    rw [e] at this
    rw [div_eq_mul_one_div]
    exact this

/-! ## `double` operations on finite values -/

theorem Dbl.signedZero_finite? (negative : Bool) : (Dbl.signedZero negative).finite? = some 0 := by
  cases negative <;> rfl

theorem Dbl.mul_fin_of_ne {a b : ℚ} (h : a * b ≠ 0) :
    Dbl.mul (Dbl.fin a) (Dbl.fin b) = roundToDouble (a * b) := by
  simp only [Dbl.mul, Dbl.finite?, if_neg h]

theorem Dbl.mul_fin_of_nonneg {a b : ℚ} (ha : 0 ≤ a) (hb : 0 ≤ b) :
    Dbl.mul (Dbl.fin a) (Dbl.fin b) = roundToDouble (a * b) := by
  by_cases h : a * b = 0
  · simp only [Dbl.mul, Dbl.finite?, if_pos h, Dbl.signBit, h, roundToDouble_zero]
    simp [Dbl.signedZero, not_lt.mpr ha, not_lt.mpr hb]
  · exact Dbl.mul_fin_of_ne h

theorem Dbl.div_fin_ofU32 (x : ℚ) {n : Nat} (hn : 0 < n) :
    Dbl.div (Dbl.fin x) (ofU32 n) = some (roundToDouble (x / n)) := by
  have hn2 : (n : ℚ) ≠ 0 := by exact_mod_cast hn.ne'
  have hn3 : ¬ (n : ℚ) < 0 := not_lt.mpr (by positivity)
  by_cases hx : x = 0
  · subst hx
    simp [Dbl.div, Dbl.finite?, ofU32, hn2, Dbl.signBit, hn3, Dbl.signedZero, roundToDouble_zero]
  · simp [Dbl.div, Dbl.finite?, ofU32, hn2, hx]

theorem mul_ofU32_int {i : Nat} {n : ℤ} (h : (i : ℤ) * |n| < 2 ^ 53) :
    (Dbl.mul (ofU32 i) (Dbl.fin (n : ℚ))).finite? = some ((i : ℚ) * n) := by
  by_cases hz : (i : ℚ) * (n : ℚ) = 0
  · have e : Dbl.mul (Dbl.fin (i : ℚ)) (Dbl.fin (n : ℚ))
        = Dbl.signedZero (xor (Dbl.fin (i : ℚ)).signBit (Dbl.fin (n : ℚ)).signBit) := by
      simp only [Dbl.mul, Dbl.finite?, if_pos hz]
    rw [ofU32, e, Dbl.signedZero_finite?, hz]
  · rw [ofU32, Dbl.mul_fin_of_ne hz]
    have e : (i : ℚ) * (n : ℚ) = (((i : ℤ) * n : ℤ) : ℚ) := by push_cast; ring
    rw [e, roundToDouble_intCast]
    · rfl
    · rw [abs_mul, abs_of_nonneg (by positivity : (0 : ℤ) ≤ (i : ℤ))]
      exact h

/-! ## Counters -/

theorem runTrace_nil : runTrace [] = initialCounters := rfl

theorem runTrace_snoc (evs : List TraceEvent) (e : TraceEvent) :
    runTrace (evs ++ [e]) = fire (runTrace evs) e := by
  simp [runTrace, runFrom, List.foldl_append]

theorem sentEvents_snoc (evs : List TraceEvent) (e : TraceEvent) :
    sentEvents (evs ++ [e]) = sentEvents evs + if e = TraceEvent.phyTxEnd then 1 else 0 := by
  simp [sentEvents, List.countP_append, List.countP_cons]

theorem receivedEvents_snoc (evs : List TraceEvent) (e : TraceEvent) :
    receivedEvents (evs ++ [e]) = receivedEvents evs +
      match e with
      | .phyRxEnd _ _ => 1
      | _ => 0 := by
  cases e <;> simp [receivedEvents, List.countP_append, List.countP_cons]

theorem collisionEvents_snoc (evs : List TraceEvent) (e : TraceEvent) :
    collisionEvents (evs ++ [e]) = collisionEvents evs +
      if e = TraceEvent.phyTxDrop then 1 else 0 := by
  simp [collisionEvents, List.countP_append, List.countP_cons]

theorem delaySum_snoc (evs : List TraceEvent) (e : TraceEvent) :
    delaySum (evs ++ [e]) = delaySum evs + delaySum [e] := by
  induction evs with
  | nil => simp [delaySum]
  | cons a evs ih =>
    cases a <;> simp [delaySum, ih, add_assoc]

/-- Each counter holds the number of firings of its own trace source, modulo `2 ^ 32`, and the
accumulated delay is the sum of the computed delays. -/
theorem runTrace_counts (evs : List TraceEvent) :
    (runTrace evs).totalPacketsSent = sentEvents evs % 2 ^ 32
    ∧ (runTrace evs).totalPacketsReceived = receivedEvents evs % 2 ^ 32
    ∧ (runTrace evs).totalCollisions = collisionEvents evs % 2 ^ 32
    ∧ (runTrace evs).totalDelay = delaySum evs := by
  induction evs using List.reverseRecOn with
  | nil => simp [runTrace_nil, initialCounters, sentEvents, receivedEvents, collisionEvents, delaySum]
  | append_singleton evs e ih =>
    obtain ⟨h1, h2, h3, h4⟩ := ih
    rw [runTrace_snoc, sentEvents_snoc, receivedEvents_snoc, collisionEvents_snoc, delaySum_snoc]
    cases e with
    | phyTxEnd =>
      simp [fire, PacketSentCallback, h1, h2, h3, h4, delaySum, Nat.add_mod]
    | phyRxEnd now uid =>
      simp [fire, PacketReceivedCallback, h1, h2, h3, h4, delaySum, Nat.add_mod]
    | phyTxDrop =>
      simp [fire, PhyCollisionCallback, h1, h2, h3, h4, delaySum, Nat.add_mod]

theorem runTrace_wellFormed (evs : List TraceEvent) : (runTrace evs).WellFormed := by
  obtain ⟨h1, h2, h3, -⟩ := runTrace_counts evs
  refine ⟨?_, ?_, ?_⟩
  · rw [h1]; exact Nat.mod_lt _ (by norm_num)
  · rw [h2]; exact Nat.mod_lt _ (by norm_num)
  · rw [h3]; exact Nat.mod_lt _ (by norm_num)

/-! ## The percentage expression and the metrics calculation -/

theorem percentOf_eq {a b : Nat} (hb : 0 < b) :
    percentOf a b = some (Dbl.mul (roundToDouble ((a : ℚ) / b)) (Dbl.fin 100)) := by
  rw [percentOf, ofU32, Dbl.div_fin_ofU32 _ hb]
  rfl

theorem percentOf_zero_left {b : Nat} (hb : 0 < b) : percentOf 0 b = some (Dbl.fin 0) := by
  rw [percentOf_eq hb]
  simp [roundToDouble_zero, Dbl.mul, Dbl.finite?, Dbl.signBit, Dbl.signedZero]

/-- Two successive roundings of a ratio in `[2 ^ (-32), 2 ^ 32]`: the quotient, then its product
with `100`. Both stay finite and the result is within a relative error `2 ^ (-51)` of the exact
percentage. -/
theorem percent_core {x : ℚ} (h1 : 1 / 2 ^ 32 ≤ x) (h2 : x ≤ 2 ^ 32) :
    roundToDouble x = Dbl.fin (roundQ x)
    ∧ roundToDouble (roundQ x * 100) = Dbl.fin (roundQ (roundQ x * 100))
    ∧ |roundQ (roundQ x * 100) - 100 * x| ≤ 100 * x / 2 ^ 51
    ∧ 0 ≤ roundQ (roundQ x * 100)
    ∧ (x ≤ 1 → roundQ (roundQ x * 100) ≤ 100)
    ∧ roundQ x * 100 ≠ 0 := by
  have hxpos : (0 : ℚ) < x := lt_of_lt_of_le (by norm_num) h1
  have hx : (2 : ℚ) ^ (-1022 : ℤ) ≤ x := le_trans (by norm_num) h1
  obtain ⟨ylo, yhi⟩ := roundQ_bounds hx
  generalize hy : roundQ x = y at *
  generalize hε : (1 : ℚ) / 2 ^ 53 = ε at *
  have hε0 : 0 < ε := by rw [← hε]; norm_num
  have hε1 : ε ≤ 1 / 2 := by rw [← hε]; norm_num
  have hε4 : 4 * ε = 1 / 2 ^ 51 := by rw [← hε]; norm_num
  have ypos : x / 2 ≤ y := by nlinarith
  have yle : y ≤ 2 * x := by nlinarith
  have hw : (2 : ℚ) ^ (-1022 : ℤ) ≤ y * 100 := by
    have : (2 : ℚ) ^ (-1022 : ℤ) ≤ 1 / 2 ^ 32 / 2 * 100 := by norm_num
    nlinarith
  obtain ⟨zlo, zhi⟩ := roundQ_bounds hw
  rw [hε] at zlo zhi
  generalize hz : roundQ (y * 100) = z at *
  have ygt : 0 < y := by linarith
  have zgt : 0 < z := by nlinarith
  have zpos : 0 ≤ z := zgt.le
  have zle : z ≤ 400 * x := by nlinarith
  refine ⟨?_, ?_, ?_, zpos, ?_, by positivity⟩
  · rw [roundToDouble_of_lt, hy]
    · rw [hy, abs_of_nonneg (by linarith)]
      have : (2 : ℚ) * 2 ^ 32 < 2 ^ 1024 := by norm_num
      linarith
    · rw [hy]; exact ygt.ne'
  · rw [roundToDouble_of_lt, hz]
    · rw [hz, abs_of_nonneg zpos]
      have : (400 : ℚ) * 2 ^ 32 < 2 ^ 1024 := by norm_num
      linarith
    · rw [hz]; exact zgt.ne'
  · have h51 : 100 * x / 2 ^ 51 = 100 * x * (4 * ε) := by rw [hε4]; ring
    rw [abs_le, h51]
    constructor
    · nlinarith [mul_nonneg hxpos.le hε0.le, mul_nonneg (mul_nonneg hxpos.le hε0.le) hε0.le]
    · nlinarith [mul_nonneg hxpos.le hε0.le, mul_nonneg (mul_nonneg hxpos.le hε0.le) hε0.le]
  · intro hx1
    have hy1 : y ≤ 1 := by
      have := roundQ_le (q := x) (n := 1) (k := 0) (by simpa using hx1)
        (by rw [abs_of_pos hxpos]; norm_num; linarith) (by norm_num)
      simpa [hy] using this
    have := roundQ_le (q := y * 100) (n := 100) (k := 0) (by norm_num; linarith)
      (by rw [abs_of_nonneg (by linarith)]; norm_num; linarith) (by norm_num)
    simpa [hz] using this

theorem percentOf_bounds {a b : Nat} (ha : a < 2 ^ 32) (hb : b < 2 ^ 32) (hb0 : 0 < b) :
    ∃ z : ℚ, percentOf a b = some (Dbl.fin z)
      ∧ |z - 100 * a / b| ≤ 100 * a / b / 2 ^ 51
      ∧ 0 ≤ z ∧ (a ≤ b → z ≤ 100)
      ∧ z = roundQ (roundQ ((a : ℚ) / b) * 100) := by
  rcases Nat.eq_zero_or_pos a with h0 | hpos
  · subst h0
    exact ⟨0, percentOf_zero_left hb0, by simp, le_rfl, fun _ => by norm_num,
      by simp [roundQ_zero]⟩
  · have hbq : (0 : ℚ) < b := by exact_mod_cast hb0
    have haq : (1 : ℚ) ≤ a := by exact_mod_cast hpos
    have ha2 : (a : ℚ) ≤ 2 ^ 32 := by exact_mod_cast ha.le
    have hb2 : (b : ℚ) ≤ 2 ^ 32 := by exact_mod_cast hb.le
    have hb1 : (1 : ℚ) ≤ b := by exact_mod_cast hb0
    have h1 : (1 : ℚ) / 2 ^ 32 ≤ (a : ℚ) / b := by
      rw [div_le_div_iff₀ (by norm_num) hbq]
      nlinarith
    have h2 : (a : ℚ) / b ≤ 2 ^ 32 := by
      rw [div_le_iff₀ hbq]
      nlinarith
    obtain ⟨e1, e2, e3, e4, e5, e6⟩ := percent_core h1 h2
    refine ⟨roundQ (roundQ ((a : ℚ) / b) * 100), ?_, ?_, e4, ?_, rfl⟩
    · rw [percentOf_eq hb0, e1, Dbl.mul_fin_of_ne e6, e2]
    · have : (100 : ℚ) * a / b = 100 * (a / b) := by ring
      rw [this]
      exact e3
    · intro hab
      apply e5
      rw [div_le_one hbq]
      exact_mod_cast hab

theorem div_ofU32 (x : Dbl) {n : Nat} (hn : 0 < n) : ∃ r, Dbl.div x (ofU32 n) = some r := by
  have hn2 : (n : ℚ) ≠ 0 := by exact_mod_cast hn.ne'
  cases x <;> simp [Dbl.div, Dbl.finite?, ofU32, hn2]

theorem percentOf_isSome (a : Nat) {b : Nat} (hb : 0 < b) : ∃ r, percentOf a b = some r :=
  ⟨_, percentOf_eq hb⟩

theorem avgDelayExpr_isSome (getSeconds : Time → Dbl) (s : Counters) :
    ∃ r, avgDelayExpr getSeconds s = some r := by
  unfold avgDelayExpr
  split_ifs with h
  · exact div_ofU32 _ h
  · exact ⟨_, rfl⟩

theorem guardedPercent_isSome (a b : Nat) : ∃ r, guardedPercent a b = some r := by
  unfold guardedPercent
  split_ifs with h
  · exact percentOf_isSome a h
  · exact ⟨_, rfl⟩

theorem metrics_eq (getSeconds : Time → Dbl) (s : Counters) {d p c : Dbl}
    (hd : avgDelayExpr getSeconds s = some d)
    (hp : guardedPercent s.totalPacketsReceived s.totalPacketsSent = some p)
    (hc : guardedPercent s.totalCollisions s.totalPacketsSent = some c) :
    metrics getSeconds s = some { avgDelay := d, PDR := p, collisionRate := c } := by
  unfold metrics
  rw [hd, hp, hc]
  rfl

theorem metrics_some (getSeconds : Time → Dbl) (s : Counters) :
    ∃ m, metrics getSeconds s = some m
      ∧ avgDelayExpr getSeconds s = some m.avgDelay
      ∧ guardedPercent s.totalPacketsReceived s.totalPacketsSent = some m.PDR
      ∧ guardedPercent s.totalCollisions s.totalPacketsSent = some m.collisionRate := by
  obtain ⟨d, hd⟩ := avgDelayExpr_isSome getSeconds s
  obtain ⟨p, hp⟩ := guardedPercent_isSome s.totalPacketsReceived s.totalPacketsSent
  obtain ⟨c, hc⟩ := guardedPercent_isSome s.totalCollisions s.totalPacketsSent
  exact ⟨_, metrics_eq getSeconds s hd hp hc, hd, hp, hc⟩

/-! ## Layout and motion -/

theorem foldl_layoutStep (d v : Dbl) (nodes : List MobilityModel) (k : Nat)
    (hk : k ≤ nodes.length) :
    ((List.range k).foldl (layoutStep d v) nodes).length = nodes.length
    ∧ ∀ i, ((List.range k).foldl (layoutStep d v) nodes)[i]?
        = if i < k then some (placedNode d v i) else nodes[i]? := by
  induction k with
  | zero => simp
  | succ k ih =>
    obtain ⟨hlen, hget⟩ := ih (by omega)
    rw [List.range_succ, List.foldl_append]
    simp only [List.foldl_cons, List.foldl_nil, layoutStep, List.length_set]
    refine ⟨hlen, fun i => ?_⟩
    rw [List.getElem?_set]
    by_cases hik : k = i
    · subst hik
      rw [if_pos rfl, if_pos (by rw [hlen]; omega), if_pos (by omega)]
    · rw [if_neg hik, hget i]
      by_cases h1 : i < k
      · rw [if_pos h1, if_pos (by omega)]
      · rw [if_neg h1, if_neg (by omega)]

theorem layout_length (N : Nat) (d v : Dbl) : (layout N d v).length = N := by
  have := (foldl_layoutStep d v (List.replicate N MobilityModel.installed) N (by simp)).1
  simpa [layout, layoutLoop] using this

theorem layout_getElem? (N : Nat) (d v : Dbl) (i : Nat) (hi : i < N) :
    (layout N d v)[i]? = some (placedNode d v i) := by
  have := (foldl_layoutStep d v (List.replicate N MobilityModel.installed) N (by simp)).2 i
  simpa [layout, layoutLoop, hi] using this

theorem positionX_layout {N : Nat} {d v : Dbl} {i : Nat} (hi : i < N) {q : ℚ}
    (h : (Dbl.mul (ofU32 i) d).finite? = some q) : positionX (layout N d v) i = some q := by
  unfold positionX
  rw [layout_getElem? N d v i hi]
  simp only [placedNode]
  rw [h]

/-! ## The function `main` -/

theorem main_eq_of_run {fw : Framework} {p : Params} {evs : List TraceEvent} {m : Metrics}
    (hrun : fw.run (layout p.numVehicles p.vehicleDistance p.vehicleSpeed) p.simTime = some evs)
    (hm : metrics fw.getSeconds (runTrace evs) = some m) :
    main fw p =
      some { exitCode := 0, output := printResults fw.showDouble p (runTrace evs) m } := by
  unfold main
  rw [hrun, Option.some_bind, hm, Option.some_bind]

theorem main_some_inv {fw : Framework} {p : Params} {o : Outcome} (h : main fw p = some o) :
    ∃ evs m,
      fw.run (layout p.numVehicles p.vehicleDistance p.vehicleSpeed) p.simTime = some evs
      ∧ metrics fw.getSeconds (runTrace evs) = some m
      ∧ o = { exitCode := 0, output := printResults fw.showDouble p (runTrace evs) m } := by
  unfold main at h
  cases hrun : fw.run (layout p.numVehicles p.vehicleDistance p.vehicleSpeed) p.simTime with
  | none => rw [hrun] at h; simp at h
  | some evs =>
    rw [hrun, Option.some_bind] at h
    obtain ⟨m, hm, -⟩ := metrics_some fw.getSeconds (runTrace evs)
    rw [hm, Option.some_bind] at h
    exact ⟨evs, m, rfl, hm, (Option.some.inj h).symm⟩

theorem main_silent (p : Params) :
    main silentFramework p =
      some { exitCode := 0
             output := printResults silentFramework.showDouble p initialCounters
               { avgDelay := Dbl.fin 0, PDR := Dbl.fin 0, collisionRate := Dbl.fin 0 } } :=
  @main_eq_of_run silentFramework p [] _ rfl rfl

/-! ## Values at concrete inputs -/

theorem roundToDouble_one_third :
    roundToDouble (1 / 3) = Dbl.fin (6004799503160661 / 18014398509481984) := by
  refine roundToDouble_eval (-2) 6004799503160661 _ ?_ ?_ ?_ ?_ ?_ ?_ ?_ <;>
    norm_num [abs_of_pos]

theorem percentOf_one_three :
    percentOf 1 3 = some (Dbl.fin (2345624805922133 / 70368744177664)) := by
  rw [percentOf_eq (by norm_num)]
  have h : ((1 : ℕ) : ℚ) / ((3 : ℕ) : ℚ) = 1 / 3 := by norm_num
  rw [h, roundToDouble_one_third]
  rw [Dbl.mul_fin_of_ne (by norm_num)]
  refine congrArg some ?_
  refine roundToDouble_eval 5 4691249611844266 _ ?_ ?_ ?_ ?_ ?_ ?_ ?_ <;>
    norm_num [abs_of_pos]

theorem percentOf_two_one : percentOf 2 1 = some (Dbl.fin 200) := by
  rw [percentOf_eq (by norm_num)]
  have h : ((2 : ℕ) : ℚ) / ((1 : ℕ) : ℚ) = ((2 : ℤ) : ℚ) := by norm_num
  rw [h, roundToDouble_intCast (by norm_num)]
  rw [Dbl.mul_fin_of_ne (by norm_num)]
  refine congrArg some ?_
  have h2 : ((2 : ℤ) : ℚ) * 100 = ((200 : ℤ) : ℚ) := by norm_num
  rw [h2, roundToDouble_intCast (by norm_num)]
  norm_num

theorem roundToDouble_one_tenth : roundToDouble (1 / 10) = Dbl.fin tenth := by
  unfold tenth
  refine roundToDouble_eval (-4) 7205759403792793 _ ?_ ?_ ?_ ?_ ?_ ?_ ?_ <;>
    norm_num [abs_of_pos]

theorem mul_two_tenth :
    Dbl.mul (ofU32 2) (Dbl.fin tenth) = Dbl.fin (3602879701896397 / 18014398509481984) := by
  rw [ofU32, Dbl.mul_fin_of_ne (by unfold tenth; norm_num)]
  unfold tenth
  refine roundToDouble_eval (-3) 7205759403792794 _ ?_ ?_ ?_ ?_ ?_ ?_ ?_ <;>
    norm_num [abs_of_pos]

theorem mul_three_tenth :
    Dbl.mul (ofU32 3) (Dbl.fin tenth) = Dbl.fin (1351079888211149 / 4503599627370496) := by
  rw [ofU32, Dbl.mul_fin_of_ne (by unfold tenth; norm_num)]
  unfold tenth
  refine roundToDouble_eval (-2) 5404319552844595 _ ?_ ?_ ?_ ?_ ?_ ?_ ?_ <;>
    norm_num [abs_of_pos]

/-! ## Stream formatting -/

theorem digitChar_toNat_sub {k : Nat} (hk : k < 10) : (Nat.digitChar k).toNat - 48 = k := by
  interval_cases k <;> rfl

theorem foldl_toDigitsCore (fuel : Nat) :
    ∀ (n : Nat) (ds : List Char), n < fuel →
      (Nat.toDigitsCore 10 fuel n ds).foldl (fun acc c => 10 * acc + (c.toNat - 48)) 0
        = ds.foldl (fun acc c => 10 * acc + (c.toNat - 48)) n := by
  induction fuel with
  | zero => intro n ds h; omega
  | succ fuel ih =>
    intro n ds h
    have hd : (Nat.digitChar (n % 10)).toNat - 48 = n % 10 :=
      digitChar_toNat_sub (Nat.mod_lt n (by norm_num))
    unfold Nat.toDigitsCore
    by_cases h0 : n / 10 = 0
    · simp only [h0, if_true, List.foldl_cons, hd]
      have : n = n % 10 := by omega
      rw [Nat.mul_zero, Nat.zero_add, ← this]
    · simp only [h0, if_false]
      rw [ih (n / 10) _ (by omega), List.foldl_cons, hd]
      have : 10 * (n / 10) + n % 10 = n := Nat.div_add_mod n 10
      rw [this]

/-- The numeral that the stream writes for a counter denotes the counter. -/
theorem readDecimal_showU32 (n : Nat) : readDecimal (showU32 n) = n := by
  unfold readDecimal showU32 Nat.repr Nat.toDigits
  simp only [List.asString]
  rw [foldl_toDigitsCore (n + 1) n [] (by omega)]
  rfl

theorem log_ten_eq {q : ℚ} {X : ℤ} (h1 : 10 ^ X ≤ q) (h2 : q < 10 ^ (X + 1)) :
    Int.log 10 q = X := by
  have hq : 0 < q := lt_of_lt_of_le (zpow_pos (by norm_num) X) h1
  have a := (Int.zpow_le_iff_le_log (R := ℚ) (b := 10) (by norm_num) (x := X) hq).mp
    (by simpa using h1)
  have b := (Int.lt_zpow_iff_log_lt (R := ℚ) (b := 10) (by norm_num) (x := X + 1) hq).mp
    (by simpa using h2)
  omega

/-- The text written for a positive `double` whose six significant digits are `m`, when rounding
to six digits does not carry into a seventh. -/
theorem streamDouble_eval {q : ℚ} (X f : ℤ) (m : ℕ) (h1 : 10 ^ X ≤ q) (h2 : q < 10 ^ (X + 1))
    (hf1 : (f : ℚ) ≤ q / 10 ^ (X - 5)) (hf2 : q / 10 ^ (X - 5) < f + 1)
    (hm : (if q / 10 ^ (X - 5) - f < 1 / 2 then f
        else if 1 / 2 < q / 10 ^ (X - 5) - f then f + 1
        else if f % 2 = 0 then f else f + 1) = (m : ℤ))
    (hm6 : (m : ℤ) ≠ 10 ^ 6) : streamDouble (Dbl.fin q) = renderG X m := by
  have hq : 0 < q := lt_of_lt_of_le (zpow_pos (by norm_num) X) h1
  have hs : sixDigits q = (m : ℤ) := by
    unfold sixDigits
    rw [log_ten_eq h1 h2, roundHalfEven_eval f hf1 hf2, hm]
  simp only [streamDouble, if_neg hq.ne', if_neg (not_lt.mpr hq.le), abs_of_pos hq, decimalExp,
    decimalMantissa, hs, if_neg hm6, log_ten_eq h1 h2, Int.toNat_ofNat]
  simp

theorem streamDouble_twelve_and_half : streamDouble (Dbl.fin (25 / 2)) = "12.5" := by
  rw [streamDouble_eval 1 125000 125000 (by norm_num) (by norm_num) (by norm_num) (by norm_num)
    (by norm_num) (by norm_num)]
  decide

theorem streamDouble_ten : streamDouble (Dbl.fin 10) = "10" := by
  rw [streamDouble_eval 1 100000 100000 (by norm_num) (by norm_num) (by norm_num) (by norm_num)
    (by norm_num) (by norm_num)]
  decide

theorem streamDouble_twenty : streamDouble (Dbl.fin 20) = "20" := by
  rw [streamDouble_eval 1 200000 200000 (by norm_num) (by norm_num) (by norm_num) (by norm_num)
    (by norm_num) (by norm_num)]
  decide

theorem streamDouble_two_and_half : streamDouble (Dbl.fin (5 / 2)) = "2.5" := by
  rw [streamDouble_eval 0 250000 250000 (by norm_num) (by norm_num) (by norm_num) (by norm_num)
    (by norm_num) (by norm_num)]
  decide

theorem streamDouble_third_percent :
    streamDouble (Dbl.fin (2345624805922133 / 70368744177664)) = "33.3333" := by
  rw [streamDouble_eval 1 333333 333333 (by norm_num) (by norm_num) (by norm_num) (by norm_num)
    (by norm_num) (by norm_num)]
  decide

theorem getSeconds_sample :
    sampleFramework.getSeconds 2500000000 = Dbl.fin (5 / 2) := by
  show roundToDouble (((2500000000 : ℤ) : ℚ) / 1000000000) = _
  refine roundToDouble_eval 1 5629499534213120 _ ?_ ?_ ?_ ?_ ?_ ?_ ?_ <;>
    norm_num [abs_of_pos]

theorem metrics_sample :
    metrics sampleFramework.getSeconds
        { totalPacketsSent := 3, totalPacketsReceived := 1, totalCollisions := 1,
          totalDelay := 2500000000 }
      = some { avgDelay := Dbl.fin (5 / 2)
               PDR := Dbl.fin (2345624805922133 / 70368744177664)
               collisionRate := Dbl.fin (2345624805922133 / 70368744177664) } := by
  refine metrics_eq _ _ ?_ ?_ ?_
  · rw [avgDelayExpr, if_pos (by norm_num), getSeconds_sample, Dbl.div_fin_ofU32 _ (by norm_num)]
    refine congrArg some ?_
    refine roundToDouble_eval 1 5629499534213120 _ ?_ ?_ ?_ ?_ ?_ ?_ ?_ <;>
      norm_num [abs_of_pos]
  · rw [guardedPercent, if_pos (by norm_num), percentOf_one_three]
  · rw [guardedPercent, if_pos (by norm_num), percentOf_one_three]

/-! ## Constant-velocity motion -/

/-- The two zeros are written differently: `-0` for the negative zero, `0` for the positive. -/
theorem streamDouble_zeros :
    streamDouble Dbl.negZero = "-0" ∧ streamDouble (Dbl.fin 0) = "0" := by
  constructor
  · rfl
  · simp [streamDouble]

/-- The report of a run at the default parameters in which no trace source fires. -/
theorem main_silent_default :
    main silentFramework Params.default = some
      { exitCode := 0
        output :=
          [ "Number of Vehicles: 20",
            "Vehicle Speed: 20 m/s",
            "Vehicle Distance: 10 meters",
            "Total Packets Sent: 0",
            "Total Packets Received: 0",
            "Packet Delivery Ratio (PDR): 0%",
            "Average Delay: 0 seconds",
            "Collision Rate: 0%" ] } := by
  rw [main_silent]
  have e1 : silentFramework.showDouble Params.default.vehicleSpeed = "20" := streamDouble_twenty
  have e2 : silentFramework.showDouble Params.default.vehicleDistance = "10" := streamDouble_ten
  have e3 : silentFramework.showDouble (Dbl.fin 0) = "0" := streamDouble_zeros.2
  simp only [printResults, e1, e2, e3]
  decide

/-! ## Properties of the program -/

/-- C1: the metrics calculation never evaluates a division by zero, whatever the counter state
and whatever `Time::GetSeconds` returns: it always produces its three values, PDR and collision
rate are `0` when `totalPacketsSent = 0`, the average delay is `0` when
`totalPacketsReceived = 0`, and a run in which no callback fires reports `0` for all three. -/
theorem metrics_zero_denominator_guards (getSeconds : Time → Dbl) (s : Counters) :
    (∃ m, metrics getSeconds s = some m
      ∧ (s.totalPacketsSent = 0 → m.PDR = Dbl.fin 0 ∧ m.collisionRate = Dbl.fin 0)
      ∧ (s.totalPacketsReceived = 0 → m.avgDelay = Dbl.fin 0))
    ∧ metrics getSeconds (runTrace []) =
        some { avgDelay := Dbl.fin 0, PDR := Dbl.fin 0, collisionRate := Dbl.fin 0 } := by
  refine ⟨?_, rfl⟩
  obtain ⟨m, hm, hd, hp, hc⟩ := metrics_some getSeconds s
  refine ⟨m, hm, ?_, ?_⟩
  · intro h0
    rw [h0] at hp hc
    simp only [guardedPercent, lt_irrefl, if_false, Option.some.injEq] at hp hc
    exact ⟨hp.symm, hc.symm⟩
  · intro h0
    rw [avgDelayExpr, h0] at hd
    simp only [lt_irrefl, if_false, Option.some.injEq] at hd
    exact hd.symm

/-- C2 (as stated, refuted): with one packet received out of three sent the reported PDR is the
`double` `2345624805922133 / 2 ^ 46`, which is not the rational `100 * 1 / 3`. -/
theorem pdr_one_of_three_not_exact :
    ∃ m, metrics silentFramework.getSeconds
        { totalPacketsSent := 3, totalPacketsReceived := 1, totalCollisions := 0,
          totalDelay := 0 } = some m
      ∧ m.PDR = Dbl.fin (2345624805922133 / 70368744177664)
      ∧ m.PDR ≠ Dbl.fin (100 * 1 / 3) := by
  obtain ⟨m, hm, -, hp, -⟩ := metrics_some silentFramework.getSeconds
    { totalPacketsSent := 3, totalPacketsReceived := 1, totalCollisions := 0, totalDelay := 0 }
  have hp2 : m.PDR = Dbl.fin (2345624805922133 / 70368744177664) := by
    have : guardedPercent 1 3 = some (Dbl.fin (2345624805922133 / 70368744177664)) := by
      rw [guardedPercent, if_pos (by norm_num), percentOf_one_three]
    have h := hp.symm.trans this
    exact Option.some.inj h
  refine ⟨m, hm, hp2, ?_⟩
  rw [hp2]
  intro h
  have := Dbl.fin.inj h
  norm_num at this

/-- C2 (amended): for counters that fit their 32-bit variables, with `totalPacketsSent > 0` the
reported PDR and collision rate are the quotient rounded to the nearest `double` times `100`,
rounded again: finite values within a relative error `2 ^ (-51)` of
`100 * totalPacketsReceived / totalPacketsSent` and `100 * totalCollisions / totalPacketsSent`;
with `totalPacketsReceived > 0` the reported average delay is the quotient of
`totalDelay.GetSeconds()` by `totalPacketsReceived` rounded to the nearest `double`, within a
relative error `2 ^ (-53)` of the exact quotient when that quotient is in the normal range. -/
theorem metrics_rounded_ratios (getSeconds : Time → Dbl) (s : Counters) (hwf : s.WellFormed) :
    ∃ m, metrics getSeconds s = some m
      ∧ (0 < s.totalPacketsSent → ∃ p c : ℚ,
          m.PDR = Dbl.fin p
          ∧ |p - 100 * s.totalPacketsReceived / s.totalPacketsSent|
              ≤ 100 * s.totalPacketsReceived / s.totalPacketsSent / 2 ^ 51
          ∧ m.collisionRate = Dbl.fin c
          ∧ |c - 100 * s.totalCollisions / s.totalPacketsSent|
              ≤ 100 * s.totalCollisions / s.totalPacketsSent / 2 ^ 51
          ∧ p = roundQ (roundQ ((s.totalPacketsReceived : ℚ) / s.totalPacketsSent) * 100)
          ∧ c = roundQ (roundQ ((s.totalCollisions : ℚ) / s.totalPacketsSent) * 100))
      ∧ (0 < s.totalPacketsReceived → ∀ x : ℚ, getSeconds s.totalDelay = Dbl.fin x →
          m.avgDelay = roundToDouble (x / s.totalPacketsReceived)
          ∧ (2 ^ (-1022 : ℤ) ≤ |x / s.totalPacketsReceived| →
              |x / s.totalPacketsReceived| < 2 ^ 1023 →
              ∃ a : ℚ, m.avgDelay = Dbl.fin a
                ∧ |a - x / s.totalPacketsReceived| ≤ |x / s.totalPacketsReceived| / 2 ^ 53)) := by
  obtain ⟨hs, hr, hc⟩ := hwf
  obtain ⟨m, hm, hd, hp, hcol⟩ := metrics_some getSeconds s
  refine ⟨m, hm, ?_, ?_⟩
  · intro h0
    obtain ⟨p, e1, e2, -, -, e5⟩ := percentOf_bounds hr hs h0
    obtain ⟨c, e3, e4, -, -, e6⟩ := percentOf_bounds hc hs h0
    rw [guardedPercent, if_pos h0] at hp hcol
    refine ⟨p, c, ?_, e2, ?_, e4, e5, e6⟩
    · exact Option.some.inj (hp.symm.trans e1)
    · exact Option.some.inj (hcol.symm.trans e3)
  · intro h0 x hx
    have e : m.avgDelay = roundToDouble (x / s.totalPacketsReceived) := by
      rw [avgDelayExpr, if_pos h0, hx, Dbl.div_fin_ofU32 x h0] at hd
      exact (Option.some.inj hd).symm
    refine ⟨e, fun h1 h2 => ?_⟩
    rw [e]
    exact roundToDouble_rel h1 h2

/-- C2 (amended), at three packets sent, one received, one collision, two ticks of delay. -/
theorem metrics_rounded_ratios_witness :
    Counters.WellFormed
      { totalPacketsSent := 3, totalPacketsReceived := 1, totalCollisions := 1, totalDelay := 2 }
    ∧ ∃ m, metrics silentFramework.getSeconds
        { totalPacketsSent := 3, totalPacketsReceived := 1, totalCollisions := 1,
          totalDelay := 2 } = some m
      ∧ ∃ p : ℚ, m.PDR = Dbl.fin p ∧ |p - 100 * 1 / 3| ≤ 100 * 1 / 3 / 2 ^ 51 := by
  obtain ⟨m, hm, h1, -⟩ := metrics_rounded_ratios silentFramework.getSeconds
    { totalPacketsSent := 3, totalPacketsReceived := 1, totalCollisions := 1, totalDelay := 2 }
    (by unfold Counters.WellFormed; decide)
  obtain ⟨p, c, hp, hb, -, -, -, -⟩ := h1 (by decide)
  exact ⟨by unfold Counters.WellFormed; decide, m, hm, p, hp, by simpa using hb⟩

/-- C3 (as stated, refuted): with `vehicleSpeed = -1` and the other parameters at their defaults,
an invalid argument set, a run in which no trace source fires ends with exit code `0` and the
eight-line report on the output. -/
theorem main_accepts_negative_speed :
    InvalidArgument { Params.default with vehicleSpeed := Dbl.fin (-1) }
    ∧ ∃ o, main silentFramework { Params.default with vehicleSpeed := Dbl.fin (-1) } = some o
        ∧ o.exitCode = 0 ∧ o.output.length = 8 := by
  refine ⟨Or.inr (Or.inl ?_), _, main_silent _, rfl, rfl⟩
  simp [Dbl.isNeg, Params.default]

/-- C3 (amended): `main` validates no argument. For every argument set, valid or not, on which
the framework calls return, `main` prints the report computed from the final counters and
returns `0`; and whenever `main` returns, its exit code is `0` and the eight report lines are
on the output. -/
theorem main_returns_zero (fw : Framework) (p : Params) (evs : List TraceEvent)
    (hrun : fw.run (layout p.numVehicles p.vehicleDistance p.vehicleSpeed) p.simTime = some evs) :
    (∃ m, metrics fw.getSeconds (runTrace evs) = some m
      ∧ main fw p =
          some { exitCode := 0, output := printResults fw.showDouble p (runTrace evs) m })
    ∧ ∀ o, main fw p = some o → o.exitCode = 0 ∧ o.output.length = 8 := by
  obtain ⟨m, hm, -⟩ := metrics_some fw.getSeconds (runTrace evs)
  refine ⟨⟨m, hm, main_eq_of_run hrun hm⟩, fun o ho => ?_⟩
  obtain ⟨evs2, m2, -, -, rfl⟩ := main_some_inv ho
  exact ⟨rfl, rfl⟩

/-- C3 (amended), at a negative vehicle speed under a framework whose run fires no trace
source. -/
theorem main_returns_zero_witness :
    InvalidArgument
      { numVehicles := 20, vehicleSpeed := Dbl.fin (-20), vehicleDistance := Dbl.fin 10,
        simTime := Dbl.fin 10 }
    ∧ ∀ o, main silentFramework
        { numVehicles := 20, vehicleSpeed := Dbl.fin (-20), vehicleDistance := Dbl.fin 10,
          simTime := Dbl.fin 10 } = some o → o.exitCode = 0 ∧ o.output.length = 8 :=
  ⟨Or.inr (Or.inl (by simp [Dbl.isNeg])), (main_returns_zero silentFramework
    { numVehicles := 20, vehicleSpeed := Dbl.fin (-20), vehicleDistance := Dbl.fin 10,
      simTime := Dbl.fin 10 } [] rfl).2⟩

/-- C4 (as stated, refuted): after a single `PacketSentCallback` from the initial counters,
`totalPacketsSent` is `1` while `totalPacketsReceived + totalCollisions` is `0`. -/
theorem conservation_fails_after_one_send :
    runTrace [TraceEvent.phyTxEnd] =
      { totalPacketsSent := 1, totalPacketsReceived := 0, totalCollisions := 0, totalDelay := 0 }
    ∧ (runTrace [TraceEvent.phyTxEnd]).totalPacketsSent ≠
        (runTrace [TraceEvent.phyTxEnd]).totalPacketsReceived
          + (runTrace [TraceEvent.phyTxEnd]).totalCollisions := by
  constructor
  · rfl
  · decide

/-- C4 (amended): for every callback sequence each counter holds the number of firings of its own
trace source modulo `2 ^ 32`; when fewer than `2 ^ 32` sends fired and the sends are as many as
the receptions and collisions together, the final counters satisfy
`totalPacketsSent = totalPacketsReceived + totalCollisions`. -/
theorem conservation_of_balanced_trace (evs : List TraceEvent) :
    (runTrace evs).totalPacketsSent = sentEvents evs % 2 ^ 32
    ∧ (runTrace evs).totalPacketsReceived = receivedEvents evs % 2 ^ 32
    ∧ (runTrace evs).totalCollisions = collisionEvents evs % 2 ^ 32
    ∧ (sentEvents evs = receivedEvents evs + collisionEvents evs → sentEvents evs < 2 ^ 32 →
        (runTrace evs).totalPacketsSent
          = (runTrace evs).totalPacketsReceived + (runTrace evs).totalCollisions) := by
  obtain ⟨h1, h2, h3, -⟩ := runTrace_counts evs
  refine ⟨h1, h2, h3, fun hbal hlt => ?_⟩
  rw [h1, h2, h3, Nat.mod_eq_of_lt hlt, Nat.mod_eq_of_lt (by omega), Nat.mod_eq_of_lt (by omega)]
  exact hbal

/-- C4 (amended), at a trace of two sends, one reception and one collision. -/
theorem conservation_of_balanced_trace_witness :
    sentEvents [TraceEvent.phyTxEnd, TraceEvent.phyRxEnd 5 1, TraceEvent.phyTxEnd,
        TraceEvent.phyTxDrop]
      = receivedEvents [TraceEvent.phyTxEnd, TraceEvent.phyRxEnd 5 1, TraceEvent.phyTxEnd,
          TraceEvent.phyTxDrop]
        + collisionEvents [TraceEvent.phyTxEnd, TraceEvent.phyRxEnd 5 1, TraceEvent.phyTxEnd,
          TraceEvent.phyTxDrop]
    ∧ (runTrace [TraceEvent.phyTxEnd, TraceEvent.phyRxEnd 5 1, TraceEvent.phyTxEnd,
        TraceEvent.phyTxDrop]).totalPacketsSent
      = (runTrace [TraceEvent.phyTxEnd, TraceEvent.phyRxEnd 5 1, TraceEvent.phyTxEnd,
          TraceEvent.phyTxDrop]).totalPacketsReceived
        + (runTrace [TraceEvent.phyTxEnd, TraceEvent.phyRxEnd 5 1, TraceEvent.phyTxEnd,
          TraceEvent.phyTxDrop]).totalCollisions :=
  ⟨by decide, (conservation_of_balanced_trace
    [TraceEvent.phyTxEnd, TraceEvent.phyRxEnd 5 1, TraceEvent.phyTxEnd,
      TraceEvent.phyTxDrop]).2.2.2 (by decide) (by decide)⟩

/-- C5 (as stated, refuted): one `PhyCollisionCallback` from the initial counters leaves
`totalCollisions = 1` above `totalPacketsSent = 0`; and one send followed by two receptions
is reported as a PDR of 200 percent. -/
theorem collisions_exceed_sent :
    runTrace [TraceEvent.phyTxDrop] =
      { totalPacketsSent := 0, totalPacketsReceived := 0, totalCollisions := 1, totalDelay := 0 }
    ∧ ¬ (runTrace [TraceEvent.phyTxDrop]).totalCollisions
        ≤ (runTrace [TraceEvent.phyTxDrop]).totalPacketsSent
    ∧ ¬ (runTrace [TraceEvent.phyTxDrop]).totalPacketsReceived
          + (runTrace [TraceEvent.phyTxDrop]).totalCollisions
        ≤ (runTrace [TraceEvent.phyTxDrop]).totalPacketsSent
    ∧ ∃ m, metrics silentFramework.getSeconds
        (runTrace [TraceEvent.phyTxEnd, TraceEvent.phyRxEnd 7 0, TraceEvent.phyRxEnd 8 0])
          = some m
      ∧ m.PDR = Dbl.fin 200 := by
  refine ⟨rfl, by decide, by decide, ?_⟩
  obtain ⟨m, hm, -, hp, -⟩ := metrics_some silentFramework.getSeconds
    (runTrace [TraceEvent.phyTxEnd, TraceEvent.phyRxEnd 7 0, TraceEvent.phyRxEnd 8 0])
  refine ⟨m, hm, ?_⟩
  have e : guardedPercent
      (runTrace [TraceEvent.phyTxEnd, TraceEvent.phyRxEnd 7 0,
        TraceEvent.phyRxEnd 8 0]).totalPacketsReceived
      (runTrace [TraceEvent.phyTxEnd, TraceEvent.phyRxEnd 7 0,
        TraceEvent.phyRxEnd 8 0]).totalPacketsSent = some (Dbl.fin 200) := by
    show guardedPercent 2 1 = _
    rw [guardedPercent, if_pos (by norm_num), percentOf_two_one]
  exact Option.some.inj (hp.symm.trans e)

/-- C5 (amended): for a callback sequence with fewer than `2 ^ 32` sent-callbacks in which the
received-callbacks and collision-callbacks together are at most as many as the sent-callbacks,
the final counters satisfy `totalCollisions ≤ totalPacketsSent` and
`totalPacketsReceived + totalCollisions ≤ totalPacketsSent`, and the reported PDR and collision
rate are finite values between 0 and 100. -/
theorem counters_bounded_of_bounded_trace (getSeconds : Time → Dbl) (evs : List TraceEvent)
    (hle : receivedEvents evs + collisionEvents evs ≤ sentEvents evs)
    (hlt : sentEvents evs < 2 ^ 32) :
    (runTrace evs).totalCollisions ≤ (runTrace evs).totalPacketsSent
    ∧ (runTrace evs).totalPacketsReceived + (runTrace evs).totalCollisions
        ≤ (runTrace evs).totalPacketsSent
    ∧ ∃ m, metrics getSeconds (runTrace evs) = some m
        ∧ ∃ p c : ℚ, m.PDR = Dbl.fin p ∧ m.collisionRate = Dbl.fin c
          ∧ 0 ≤ p ∧ p ≤ 100 ∧ 0 ≤ c ∧ c ≤ 100 := by
  obtain ⟨h1, h2, h3, -⟩ := runTrace_counts evs
  rw [Nat.mod_eq_of_lt hlt] at h1
  rw [Nat.mod_eq_of_lt (by omega)] at h2 h3
  obtain ⟨m, hm, -, hp, hc⟩ := metrics_some getSeconds (runTrace evs)
  refine ⟨by omega, by omega, m, hm, ?_⟩
  rcases Nat.eq_zero_or_pos (runTrace evs).totalPacketsSent with h0 | h0
  · rw [guardedPercent, if_neg (by omega)] at hp hc
    exact ⟨0, 0, (Option.some.inj hp).symm, (Option.some.inj hc).symm, le_rfl, by norm_num,
      le_rfl, by norm_num⟩
  · rw [guardedPercent, if_pos h0] at hp hc
    obtain ⟨p, e1, -, p0, p100, -⟩ := percentOf_bounds (a := (runTrace evs).totalPacketsReceived)
      (b := (runTrace evs).totalPacketsSent) (by omega) (by omega) h0
    obtain ⟨c, e2, -, c0, c100, -⟩ := percentOf_bounds (a := (runTrace evs).totalCollisions)
      (b := (runTrace evs).totalPacketsSent) (by omega) (by omega) h0
    exact ⟨p, c, Option.some.inj (hp.symm.trans e1), Option.some.inj (hc.symm.trans e2), p0,
      p100 (by omega), c0, c100 (by omega)⟩

/-- C5 (amended), at a trace of two sends, one reception and one collision. -/
theorem counters_bounded_of_bounded_trace_witness :
    receivedEvents [TraceEvent.phyTxEnd, TraceEvent.phyTxEnd, TraceEvent.phyRxEnd 9 3,
        TraceEvent.phyTxDrop]
      + collisionEvents [TraceEvent.phyTxEnd, TraceEvent.phyTxEnd, TraceEvent.phyRxEnd 9 3,
        TraceEvent.phyTxDrop]
      ≤ sentEvents [TraceEvent.phyTxEnd, TraceEvent.phyTxEnd, TraceEvent.phyRxEnd 9 3,
        TraceEvent.phyTxDrop]
    ∧ (runTrace [TraceEvent.phyTxEnd, TraceEvent.phyTxEnd, TraceEvent.phyRxEnd 9 3,
        TraceEvent.phyTxDrop]).totalCollisions
      ≤ (runTrace [TraceEvent.phyTxEnd, TraceEvent.phyTxEnd, TraceEvent.phyRxEnd 9 3,
        TraceEvent.phyTxDrop]).totalPacketsSent :=
  ⟨by decide, (counters_bounded_of_bounded_trace silentFramework.getSeconds
    [TraceEvent.phyTxEnd, TraceEvent.phyTxEnd, TraceEvent.phyRxEnd 9 3, TraceEvent.phyTxDrop]
    (by decide) (by decide)).1⟩

/-- C6 (as stated, refuted): with `vehicleDistance` the `double` nearest to 0.1, nodes 2 and 3
are placed at `0.2` and `0.30000000000000004`, which differ by more than `vehicleDistance`. -/
theorem spacing_not_exact_for_tenth :
    roundToDouble (1 / 10) = Dbl.fin tenth
    ∧ positionX (layout 4 (Dbl.fin tenth) (Dbl.fin 20)) 2
        = some (3602879701896397 / 18014398509481984)
    ∧ positionX (layout 4 (Dbl.fin tenth) (Dbl.fin 20)) 3
        = some (1351079888211149 / 4503599627370496)
    ∧ (1351079888211149 / 4503599627370496 - 3602879701896397 / 18014398509481984 : ℚ)
        ≠ tenth := by
  refine ⟨roundToDouble_one_tenth, positionX_layout (by norm_num) (by rw [mul_two_tenth]; rfl),
    positionX_layout (by norm_num) (by rw [mul_three_tenth]; rfl), ?_⟩
  unfold tenth
  norm_num

/-- C6 (amended): for every `numVehicles = N`, `vehicleDistance = d` and `vehicleSpeed = v` the
layout gives exactly `N` nodes, node `i` having position `(i * d, 0, 0)` with the product taken
in `double` arithmetic and velocity `(v, 0, 0)`, the same for all nodes; when `d` is an integer
with `N * |d| < 2 ^ 53` the products are exact, node `i` is at `i * d` and consecutive nodes
differ by exactly `d`; for any finite `d` with `i * d` in the normal range, node `i` is within a
relative error `2 ^ (-53)` of `i * d`. -/
theorem layout_nodes (N : Nat) (d v : Dbl) :
    (layout N d v).length = N
    ∧ (∀ i, i < N → (layout N d v)[i]? =
        some { position := ⟨Dbl.mul (ofU32 i) d, Dbl.zero, Dbl.zero⟩
               velocity := ⟨v, Dbl.zero, Dbl.zero⟩ })
    ∧ (∀ n : ℤ, d = Dbl.fin (n : ℚ) → (N : ℤ) * |n| < 2 ^ 53 → ∀ i, i + 1 < N →
        ∃ x y : ℚ, positionX (layout N d v) i = some x
          ∧ positionX (layout N d v) (i + 1) = some y
          ∧ x = i * n ∧ y - x = n)
    ∧ (∀ δ : ℚ, d = Dbl.fin δ → ∀ i, i < N →
        2 ^ (-1022 : ℤ) ≤ |(i : ℚ) * δ| → |(i : ℚ) * δ| < 2 ^ 1023 →
        ∃ x : ℚ, positionX (layout N d v) i = some x
          ∧ |x - i * δ| ≤ |(i : ℚ) * δ| / 2 ^ 53) := by
  refine ⟨layout_length N d v, fun i hi => layout_getElem? N d v i hi, ?_, ?_⟩
  swap
  · intro δ hd i hi h1 h2
    subst hd
    have hne : (i : ℚ) * δ ≠ 0 := by
      intro h0
      rw [h0, abs_zero] at h1
      exact absurd h1 (not_le.mpr (two_zpow_pos _))
    obtain ⟨x, hx, hb⟩ := roundToDouble_rel h1 h2
    refine ⟨x, positionX_layout hi ?_, hb⟩
    rw [ofU32, Dbl.mul_fin_of_ne hne, hx]
    rfl
  intro n hd hN i hi
  subst hd
  have hn : (0 : ℤ) ≤ |n| := abs_nonneg n
  have h1 : (i : ℤ) * |n| < 2 ^ 53 := by
    have : (i : ℤ) * |n| ≤ (N : ℤ) * |n| :=
      mul_le_mul_of_nonneg_right (by exact_mod_cast (by omega : i ≤ N)) hn
    omega
  have h2 : ((i + 1 : ℕ) : ℤ) * |n| < 2 ^ 53 := by
    have : ((i + 1 : ℕ) : ℤ) * |n| ≤ (N : ℤ) * |n| :=
      mul_le_mul_of_nonneg_right (by exact_mod_cast (by omega : i + 1 ≤ N)) hn
    omega
  refine ⟨_, _, positionX_layout (by omega) (mul_ofU32_int h1),
    positionX_layout hi (mul_ofU32_int h2), rfl, ?_⟩
  push_cast
  ring

/-- C6 (amended), at the default parameters: twenty vehicles ten metres apart. -/
theorem layout_nodes_witness :
    (layout 20 (Dbl.fin 10) (Dbl.fin 20)).length = 20
    ∧ ∃ x y : ℚ, positionX (layout 20 (Dbl.fin 10) (Dbl.fin 20)) 7 = some x
        ∧ positionX (layout 20 (Dbl.fin 10) (Dbl.fin 20)) 8 = some y
        ∧ x = 70 ∧ y - x = 10 := by
  obtain ⟨h1, -, h3, -⟩ := layout_nodes 20 (Dbl.fin 10) (Dbl.fin 20)
  obtain ⟨x, y, hx, hy, e1, e2⟩ := h3 10 (by norm_num) (by norm_num) 7 (by norm_num)
  exact ⟨h1, x, y, hx, hy, by rw [e1]; norm_num, by rw [e2]; norm_num⟩

/-- C7 (the code at the failing input): for a packet with identifier `1` received when the clock
reads `0` ticks, `PacketReceivedCallback` computes the delay `-1` tick and leaves a negative
`totalDelay`; and at every clock value `n` the delay computed for the identifier `n + 1` is
`-1` tick. -/
theorem receivedDelay_negative :
    receivedDelay 0 1 = -1
    ∧ PacketReceivedCallback 0 1 initialCounters =
        { totalPacketsSent := 0, totalPacketsReceived := 1, totalCollisions := 0,
          totalDelay := -1 }
    ∧ (runTrace [TraceEvent.phyRxEnd 0 1]).totalDelay < 0
    ∧ ∀ n : Nat, n + 1 < 2 ^ 63 → receivedDelay (n : Int) (n + 1) = -1 := by
  refine ⟨by decide, by decide, by decide, fun n hn => ?_⟩
  have h1 : (n + 1) % 2 ^ 64 = n + 1 := Nat.mod_eq_of_lt (by omega)
  unfold receivedDelay uidAsTime
  rw [h1, if_pos hn]
  push_cast
  ring

/-- C8: whenever the framework calls return, `main` returns and its output is exactly eight
lines, in this order: number of vehicles, vehicle speed, vehicle distance, total packets sent,
total packets received, PDR as a percentage, average delay in seconds, collision rate as a
percentage; each line is its label followed by the stream's text for the parameter, final
counter or computed metric, and its unit; the text written for a counter is the decimal numeral
that denotes it. -/
theorem report_eight_lines (fw : Framework) (p : Params) (evs : List TraceEvent)
    (hrun : fw.run (layout p.numVehicles p.vehicleDistance p.vehicleSpeed) p.simTime = some evs) :
    ∃ m, metrics fw.getSeconds (runTrace evs) = some m
      ∧ main fw p = some
          { exitCode := 0
            output :=
              [ "Number of Vehicles: " ++ showU32 p.numVehicles,
                "Vehicle Speed: " ++ fw.showDouble p.vehicleSpeed ++ " m/s",
                "Vehicle Distance: " ++ fw.showDouble p.vehicleDistance ++ " meters",
                "Total Packets Sent: " ++ showU32 (runTrace evs).totalPacketsSent,
                "Total Packets Received: " ++ showU32 (runTrace evs).totalPacketsReceived,
                "Packet Delivery Ratio (PDR): " ++ fw.showDouble m.PDR ++ "%",
                "Average Delay: " ++ fw.showDouble m.avgDelay ++ " seconds",
                "Collision Rate: " ++ fw.showDouble m.collisionRate ++ "%" ] }
      ∧ (∀ o, main fw p = some o → o.output.length = 8)
      ∧ readDecimal (showU32 p.numVehicles) = p.numVehicles
      ∧ readDecimal (showU32 (runTrace evs).totalPacketsSent) = (runTrace evs).totalPacketsSent
      ∧ readDecimal (showU32 (runTrace evs).totalPacketsReceived)
          = (runTrace evs).totalPacketsReceived := by
  obtain ⟨m, hm, -⟩ := metrics_some fw.getSeconds (runTrace evs)
  have hmain := main_eq_of_run hrun hm
  refine ⟨m, hm, hmain, fun o ho => ?_, readDecimal_showU32 _, readDecimal_showU32 _,
    readDecimal_showU32 _⟩
  rw [hmain] at ho
  rw [← Option.some.inj ho]
  rfl

/-- C8, at three vehicles moving at 12.5 m/s ten metres apart, under a framework whose run fires
three sends, one reception after 2.5 s and one collision: the eight lines of the report. -/
theorem report_eight_lines_witness :
    sampleFramework.run
        (layout sampleParams.numVehicles sampleParams.vehicleDistance sampleParams.vehicleSpeed)
        sampleParams.simTime
      = some [TraceEvent.phyTxEnd, TraceEvent.phyRxEnd 2500000000 0, TraceEvent.phyTxEnd,
          TraceEvent.phyTxDrop, TraceEvent.phyTxEnd]
    ∧ main sampleFramework sampleParams = some
        { exitCode := 0
          output :=
            [ "Number of Vehicles: 3",
              "Vehicle Speed: 12.5 m/s",
              "Vehicle Distance: 10 meters",
              "Total Packets Sent: 3",
              "Total Packets Received: 1",
              "Packet Delivery Ratio (PDR): 33.3333%",
              "Average Delay: 2.5 seconds",
              "Collision Rate: 33.3333%" ] } := by
  refine ⟨rfl, ?_⟩
  obtain ⟨m, hm, hmain, -⟩ := report_eight_lines sampleFramework sampleParams
    [TraceEvent.phyTxEnd, TraceEvent.phyRxEnd 2500000000 0, TraceEvent.phyTxEnd,
      TraceEvent.phyTxDrop, TraceEvent.phyTxEnd] rfl
  have hs : runTrace [TraceEvent.phyTxEnd, TraceEvent.phyRxEnd 2500000000 0,
      TraceEvent.phyTxEnd, TraceEvent.phyTxDrop, TraceEvent.phyTxEnd]
      = { totalPacketsSent := 3, totalPacketsReceived := 1, totalCollisions := 1,
          totalDelay := 2500000000 } := by decide
  rw [hs, metrics_sample] at hm
  rw [hmain, hs, ← Option.some.inj hm]
  have e1 : sampleFramework.showDouble sampleParams.vehicleSpeed = "12.5" :=
    streamDouble_twelve_and_half
  have e2 : sampleFramework.showDouble sampleParams.vehicleDistance = "10" := streamDouble_ten
  have e3 : sampleFramework.showDouble (Dbl.fin (2345624805922133 / 70368744177664))
      = "33.3333" := streamDouble_third_percent
  have e4 : sampleFramework.showDouble (Dbl.fin (5 / 2)) = "2.5" := streamDouble_two_and_half
  simp only [e1, e2, e3, e4]
  decide

/-- C9: `PacketSentCallback` adds one to `totalPacketsSent` modulo `2 ^ 32` and changes nothing
else; `PhyCollisionCallback` does the same with `totalCollisions`; `PacketReceivedCallback` adds
one to `totalPacketsReceived`, adds the computed delay to `totalDelay` and leaves the other two
counters alone; after `k` sent-callbacks from the initial state `totalPacketsSent` is
`k mod 2 ^ 32` and the other variables are still zero. -/
theorem callbacks_frame :
    (∀ s : Counters,
      PacketSentCallback s = { s with totalPacketsSent := (s.totalPacketsSent + 1) % 2 ^ 32 }
      ∧ (PacketSentCallback s).totalPacketsReceived = s.totalPacketsReceived
      ∧ (PacketSentCallback s).totalCollisions = s.totalCollisions
      ∧ (PacketSentCallback s).totalDelay = s.totalDelay)
    ∧ (∀ s : Counters,
      (PhyCollisionCallback s).totalCollisions = (s.totalCollisions + 1) % 2 ^ 32
      ∧ (PhyCollisionCallback s).totalPacketsSent = s.totalPacketsSent
      ∧ (PhyCollisionCallback s).totalPacketsReceived = s.totalPacketsReceived
      ∧ (PhyCollisionCallback s).totalDelay = s.totalDelay)
    ∧ (∀ (now : Time) (uid : Nat) (s : Counters),
      (PacketReceivedCallback now uid s).totalPacketsReceived
        = (s.totalPacketsReceived + 1) % 2 ^ 32
      ∧ (PacketReceivedCallback now uid s).totalDelay = s.totalDelay + (now - uidAsTime uid)
      ∧ (PacketReceivedCallback now uid s).totalPacketsSent = s.totalPacketsSent
      ∧ (PacketReceivedCallback now uid s).totalCollisions = s.totalCollisions)
    ∧ (∀ k : Nat,
      PacketSentCallback^[k] initialCounters =
        { totalPacketsSent := k % 2 ^ 32, totalPacketsReceived := 0, totalCollisions := 0,
          totalDelay := 0 }) := by
  refine ⟨fun s => ⟨rfl, rfl, rfl, rfl⟩, fun s => ⟨rfl, rfl, rfl, rfl⟩,
    fun now uid s => ⟨rfl, rfl, rfl, rfl⟩, fun k => ?_⟩
  induction k with
  | zero => rfl
  | succ k ih =>
    rw [Function.iterate_succ_apply', ih]
    simp [PacketSentCallback, Nat.add_mod]

end CV2X
